import Mathlib

/-
Shallow embedding of the salvage/looting simulation core:
  src/src/engine.ts   (class LootingEngine)
  src/src/hazard.ts   (addHazard, checkThresholdEvents, rollThresholdEffects)
  src/src/autoQueue.ts (computeAutoQueue)
  util.ts             (clamp, pickRandom, weightedValuePerKg)
  types.ts / constants.ts (data model, DEFAULT_SIM_CONFIG, STANCE_MODIFIERS)

Modelling conventions:
  - JS numbers are modelled as exact rationals (ℚ).
  - JS object references are modelled by a heap: every LootNode object lives
    in `EngineState.heap`, addressed by its `id` string; `site.nodes`, the
    queue and `currentNode` hold ids (references).  Field mutation through a
    reference becomes an update of the heap entry, visible through every
    alias, exactly as in JS.  Destruction removes the id from `site.nodes`
    but the object stays in the heap (live references keep it alive).
  - `Math.random()` is modelled as consuming the head of an explicit list of
    rational draws carried in the state (`rng`); an exhausted list yields 0.
    Math.random's contract is that draws lie in [0,1).
  - The event-sink callback becomes the `List EEvent` returned alongside the
    new state, in emission order.
  - The exact-rational model is supplemented by a faithful IEEE-754 binary64
    model (`fl64` rounds a rational to the nearest double, ties to even; the
    values arising here are all well inside the normal range, so overflow
    and subnormals do not occur) together with double-arithmetic versions of
    the engine-step functions (suffix `D`), used where a property depends on
    floating-point accumulation error — e.g. 100 double additions of
    `1 / 10` total 9.99999999999998, not 10.
  - `checkThresholdEvents`'s three callbacks are inlined with the unique
    implementations the engine passes in `tickHazard` (engine.ts:164-175):
    onNodeDamaged emits NodeDamaged; onNodeDestroyed filters the node out of
    `site.nodes` (without touching `exhausted`) and emits NodeDestroyed;
    onThreshold emits HazardThreshold.
-/

namespace LootSim

/-- Loot categories (types.ts `LootKind`). -/
inductive LootKind where
  | Module | Crate | Intel | Crew
deriving DecidableEq, Repr

/-- Descriptive tags (types.ts `LootTag`). -/
inductive LootTag where
  | Ammo | Fuel | Volatile | Fragile | Heavy | Rare | Ore | Oil
deriving DecidableEq, Repr

/-- Required tool (types.ts, the `requiresTool` field's value set). -/
inductive Tool where
  | Crane | Cutter
deriving DecidableEq, Repr

/-- Site categories (types.ts `SiteType`). -/
inductive SiteType where
  | Wreck | ResourceNode
deriving DecidableEq, Repr

/-- Operator stances (types.ts `Stance`). -/
inductive Stance where
  | Quick | Normal | Careful
deriving DecidableEq, Repr

/-- Node ids: JS object identity is by the `id` string in this codebase. -/
abbrev NodeId := String

/-- One extractable item (types.ts `LootNode`).  The record holds the
object's mutable fields; the object itself lives in the engine heap. -/
structure LootNode where
  id : NodeId
  name : String
  kind : LootKind
  tags : List LootTag
  massKg : ℚ
  volumeM3 : ℚ
  condition : ℚ
  value : ℚ
  extractTimeSec : ℚ
  baseNoisePerSec : ℚ
  baseHazardPerSec : ℚ
  requiresTool : Option Tool
  volatile : Option Bool
deriving DecidableEq, Repr

/-- The location being salvaged (types.ts `Site`).  `nodes` is the live
ordered collection of remaining nodes, as references (ids). -/
structure Site where
  id : String
  siteType : SiteType
  posX : ℚ
  posY : ℚ
  nodes : List NodeId
  hazard : ℚ
  baselineNoisePerSec : ℚ
  stabilizedVolatiles : Bool
  exhausted : Bool
  createdAt : Option ℚ
  integrity : Option ℚ
deriving DecidableEq, Repr

/-- Shared cargo capacity tracker (types.ts `CargoState`). -/
structure CargoState where
  maxMassKg : ℚ
  maxVolumeM3 : ℚ
  usedMassKg : ℚ
  usedVolumeM3 : ℚ
deriving DecidableEq, Repr

/-- Tool availability (types.ts `ToolsState`). -/
structure ToolsState where
  hasCrane : Bool
  hasCutter : Bool
deriving DecidableEq, Repr

/-- Per-operation options (types.ts `OperationOptions`). -/
structure OperationOptions where
  stance : Stance
  waitForSpace : Bool
  autoStabilizeVolatiles : Bool
deriving DecidableEq, Repr

/-- Tunable constants (types.ts `SimulationConfig`); the hazard clamp
object is flattened into the two fields min/max. -/
structure SimulationConfig where
  tickRateHz : ℚ
  hazardClampMin : ℚ
  hazardClampMax : ℚ
  hazardThresholds : List ℚ
  stallChanceAtThreshold : ℚ
  fragileDamageChanceAtThreshold : ℚ
  volatileExplodeChanceAtThreshold : ℚ
  volatileRadiusCount : ℕ
  stabilizeTimeSec : ℚ
  stabilizeNoisePerSec : ℚ
  stabilizeEffectMultiplier : ℚ
deriving DecidableEq, Repr

/-- constants.ts `DEFAULT_SIM_CONFIG`. -/
def DEFAULT_SIM_CONFIG : SimulationConfig where
  tickRateHz := 10
  hazardClampMin := 0
  hazardClampMax := 100
  hazardThresholds := [30, 60, 90]
  stallChanceAtThreshold := 0.15
  fragileDamageChanceAtThreshold := 0.25
  volatileExplodeChanceAtThreshold := 0.2
  volatileRadiusCount := 2
  stabilizeTimeSec := 6
  stabilizeNoisePerSec := 4
  stabilizeEffectMultiplier := 0.5

/-- constants.ts `StanceModifiers`. -/
structure StanceModifiers where
  timeMultiplier : ℚ
  noiseMultiplier : ℚ
  hazardMultiplier : ℚ
  conditionDelta : ℚ
deriving DecidableEq, Repr

/-- constants.ts `STANCE_MODIFIERS` lookup table. -/
def STANCE_MODIFIERS : Stance → StanceModifiers
  | .Quick => { timeMultiplier := 0.65, noiseMultiplier := 1.35, hazardMultiplier := 1.35, conditionDelta := -10 }
  | .Normal => { timeMultiplier := 1, noiseMultiplier := 1, hazardMultiplier := 1, conditionDelta := 0 }
  | .Careful => { timeMultiplier := 1.25, noiseMultiplier := 0.75, hazardMultiplier := 0.75, conditionDelta := 10 }

/-- util.ts `clamp(value, min, max) = Math.max(min, Math.min(max, value))`. -/
def clamp (value minVal maxVal : ℚ) : ℚ :=
  max minVal (min maxVal value)

/-- The event stream (types.ts `ExtractionEvent`), one constructor per
variant with its payload fields. -/
inductive EEvent where
  | Tick (timeSec : ℚ)
  | ItemStarted (timeSec : ℚ) (node : LootNode) (queueIndex : ℕ)
  | ItemProgress (timeSec : ℚ) (node : LootNode) (progress : ℚ)
  | ItemTransferred (timeSec : ℚ) (node : LootNode)
  | ItemSkipped (timeSec : ℚ) (node : LootNode) (message : String)
  | ItemStalled (timeSec : ℚ) (node : LootNode) (message : String)
  | HazardThreshold (timeSec : ℚ) (threshold : ℚ)
  | NodeDamaged (timeSec : ℚ) (node : LootNode) (message : String)
  | NodeDestroyed (timeSec : ℚ) (node : LootNode) (message : String)
  | StabilizedVolatiles (timeSec : ℚ)
  | Aborted (timeSec : ℚ)
  | Completed (timeSec : ℚ)
deriving DecidableEq, Repr

/-- hazard.ts `HazardState`: the set of thresholds already fired during the
current operation, as a list used only through membership. -/
structure HazardState where
  triggeredThresholds : List ℚ
deriving DecidableEq, Repr

/-- hazard.ts `createHazardState()`. -/
def createHazardState : HazardState := { triggeredThresholds := [] }

/-- The whole mutable world of one `LootingEngine` instance: the private
fields of the class (engine.ts:26-38) plus the heap of node objects and the
pending random draws. -/
structure EngineState where
  heap : List LootNode
  site : Site
  cargo : CargoState
  tools : ToolsState
  options : OperationOptions
  config : SimulationConfig
  queue : List NodeId
  isRunning : Bool
  timeSec : ℚ
  currentNodeProgressSec : ℚ
  currentNodeTotalSec : ℚ
  currentNode : Option NodeId
  hazardState : HazardState
  rng : List ℚ
deriving DecidableEq, Repr

/-- Placeholder node used to totalise heap lookups; never reachable for
ids actually present in the heap. -/
def defaultNode : LootNode where
  id := ""
  name := ""
  kind := .Module
  tags := []
  massKg := 0
  volumeM3 := 0
  condition := 0
  value := 0
  extractTimeSec := 0
  baseNoisePerSec := 0
  baseHazardPerSec := 0
  requiresTool := none
  volatile := none

/-- Dereference an id in the heap. -/
def findNode (heap : List LootNode) (nid : NodeId) : Option LootNode :=
  heap.find? (fun n => n.id == nid)

/-- Dereference, totalised (the JS code never dereferences a dangling id). -/
def getNode (heap : List LootNode) (nid : NodeId) : LootNode :=
  (findNode heap nid).getD defaultNode

/-- Mutate the object with id `nid` through any of its references. -/
def updateNode (heap : List LootNode) (nid : NodeId) (f : LootNode → LootNode) : List LootNode :=
  heap.map (fun n => if n.id = nid then f n else n)

/-- One `Math.random()` call: consume the next pending draw. -/
def nextRand : List ℚ → ℚ × List ℚ
  | [] => (0, [])
  | r :: rest => (r, rest)

/-- util.ts `pickRandom(array, count)`: sample without replacement; each
iteration removes element `Math.floor(Math.random() * copy.length)`.  A
draw outside Math.random's [0,1) contract picks nothing that iteration. -/
def pickRandom {α : Type} : List α → ℕ → List ℚ → List α × List ℚ
  | _, 0, rng => ([], rng)
  | [], _ + 1, rng => ([], rng)
  | copy, k + 1, rng =>
    let r := (nextRand rng).1
    let rng1 := (nextRand rng).2
    let idx := (Int.floor (r * copy.length)).toNat
    if h : idx < copy.length then
      let rec1 := pickRandom (copy.eraseIdx idx) k rng1
      (copy.get ⟨idx, h⟩ :: rec1.1, rec1.2)
    else
      pickRandom copy k rng1

/-- util.ts `weightedValuePerKg(value, massKg, isPreferred)`. -/
def weightedValuePerKg (value massKg : ℚ) (isPreferred : Bool) : ℚ :=
  if massKg ≤ 0 then (if isPreferred then value * 2 else value)
  else
    let base := value / massKg
    if isPreferred then base * 2 else base

/-- hazard.ts `addHazard(site, amount, config)`. -/
def addHazard (site : Site) (amount : ℚ) (config : SimulationConfig) : Site :=
  { site with hazard := clamp (site.hazard + amount) config.hazardClampMin config.hazardClampMax }

/-- Draw one `Math.random()` value out of the engine state. -/
def drawRand (s : EngineState) : ℚ × EngineState :=
  let (r, rng1) := nextRand s.rng
  (r, { s with rng := rng1 })

/-- The engine's `onNodeDestroyed` callback body (engine.ts:169-172), minus
the event emission: `this.site.nodes = this.site.nodes.filter(n => n.id !==
node.id)`.  Note it does not touch `site.exhausted`. -/
def destroyNodeCallback (s : EngineState) (nid : NodeId) : EngineState :=
  { s with site := { s.site with nodes := s.site.nodes.filter (fun i => i != nid) } }

/-- The blast-neighbor selection inside the volatile pass (hazard.ts:48):
`pickRandom(site.nodes.filter(n => n.id !== node.id), config.volatileRadiusCount)`. -/
def selectBlastNeighbors (s : EngineState) (nid : NodeId) : List NodeId × List ℚ :=
  pickRandom (s.site.nodes.filter (fun i => i != nid)) s.config.volatileRadiusCount s.rng

/-- Lift a loop body that returns its newly emitted events into a fold step
over an (state, emitted-so-far) accumulator: the JS loop simply keeps
calling `emit`, i.e. appends. -/
def stepEv {alpha : Type} (core : EngineState → alpha → EngineState × List EEvent)
    (acc : EngineState × List EEvent) (x : alpha) : EngineState × List EEvent :=
  let (s, evs) := acc
  let (s1, new) := core s x
  (s1, evs ++ new)

/-- The body of the neighbor loop in the volatile pass (hazard.ts:49-57):
50% chance of 25 condition damage, destruction if condition reaches 0. -/
def blastCore (s : EngineState) (nbId : NodeId) : EngineState × List EEvent :=
  let (r, s) := drawRand s
  if r < 1/2 then
    let s := { s with heap := updateNode s.heap nbId (fun n => { n with condition := max 0 (n.condition - 25) }) }
    let nb := getNode s.heap nbId
    if nb.condition ≤ 0 then
      let s1 := destroyNodeCallback s nbId
      (s1, [.NodeDamaged s.timeSec nb (nb.name ++ " damaged by blast."),
            .NodeDestroyed s.timeSec nb (nb.name ++ " destroyed by blast damage.")])
    else (s, [.NodeDamaged s.timeSec nb (nb.name ++ " damaged by blast.")])
  else (s, [])

/-- The neighbor loop body as a fold step. -/
def blastStep : EngineState × List EEvent → NodeId → EngineState × List EEvent :=
  stepEv blastCore

/-- The explosion branch of the volatile loop (hazard.ts:45-57): destroy
the candidate (emitting NodeDestroyed first), then roll the selected blast
neighbors. -/
def explodeNode (s : EngineState) (nid : NodeId) : EngineState × List EEvent :=
  let node := getNode s.heap nid
  let s1 := destroyNodeCallback s nid
  let destroyedEv : EEvent := .NodeDestroyed s1.timeSec node (node.name ++ " detonated due to rising hazard.")
  let picked := selectBlastNeighbors s1 nid
  let s2 := { s1 with rng := picked.2 }
  let fold := picked.1.foldl blastStep (s2, [])
  (fold.1, destroyedEv :: fold.2)

/-- One iteration of the volatile-explosion loop as the draw plus, on
success, the explosion of `explodeNode`. -/
def volatileCore (s : EngineState) (nid : NodeId) : EngineState × List EEvent :=
  let chance := s.config.volatileExplodeChanceAtThreshold *
    (if s.site.stabilizedVolatiles then s.config.stabilizeEffectMultiplier else 1)
  let (r, s) := drawRand s
  if r < chance then explodeNode s nid
  else (s, [])

/-- The volatile loop body as a fold step. -/
def volatileStep : EngineState × List EEvent → NodeId → EngineState × List EEvent :=
  stepEv volatileCore

/-- The volatile-explosion pass (hazard.ts:41-59): the candidate list is a
snapshot of `site.nodes` filtered by tag, taken before the loop runs. -/
def volatilePass (s : EngineState) : EngineState × List EEvent :=
  let volatileCandidates := s.site.nodes.filter (fun i =>
    let n := getNode s.heap i
    n.tags.contains .Volatile || n.tags.contains .Ammo || n.tags.contains .Fuel)
  volatileCandidates.foldl volatileStep (s, [])

/-- One iteration of the fragile-damage loop (hazard.ts:62-67); the random
draw happens only for Fragile-tagged nodes (short-circuit `&&`). -/
def fragileCore (s : EngineState) (nid : NodeId) : EngineState × List EEvent :=
  if (getNode s.heap nid).tags.contains .Fragile then
    let (r, s) := drawRand s
    if r < s.config.fragileDamageChanceAtThreshold then
      let s := { s with heap := updateNode s.heap nid (fun n => { n with condition := max 0 (n.condition - 15) }) }
      let n := getNode s.heap nid
      (s, [.NodeDamaged s.timeSec n (n.name ++ " condition dropped due to instability.")])
    else (s, [])
  else (s, [])

/-- The fragile loop body as a fold step. -/
def fragileStep : EngineState × List EEvent → NodeId → EngineState × List EEvent :=
  stepEv fragileCore

/-- The fragile-damage pass (hazard.ts:61-67), iterating the current
`site.nodes`. -/
def fragilePass (s : EngineState) : EngineState × List EEvent :=
  s.site.nodes.foldl fragileStep (s, [])

/-- One iteration of the stall loop (hazard.ts:70-76); every node draws. -/
def stallCore (s : EngineState) (nid : NodeId) : EngineState × List EEvent :=
  let (r, s) := drawRand s
  if r < s.config.stallChanceAtThreshold then
    let s := { s with heap := updateNode s.heap nid (fun n => { n with extractTimeSec := n.extractTimeSec + 3 }) }
    let n := getNode s.heap nid
    (s, [.NodeDamaged s.timeSec n (n.name ++ " encountered a stall; extraction slowed.")])
  else (s, [])

/-- The stall loop body as a fold step. -/
def stallStep : EngineState × List EEvent → NodeId → EngineState × List EEvent :=
  stepEv stallCore

/-- The stall pass (hazard.ts:69-76), iterating the current `site.nodes`. -/
def stallPass (s : EngineState) : EngineState × List EEvent :=
  s.site.nodes.foldl stallStep (s, [])

/-- hazard.ts `rollThresholdEffects`: volatile explosions, then fragile
damage, then stalls. -/
def rollThresholdEffects (s : EngineState) : EngineState × List EEvent :=
  let v := volatilePass s
  let f := fragilePass v.1
  let g := stallPass f.1
  (g.1, v.2 ++ (f.2 ++ g.2))

/-- The loop body of hazard.ts `checkThresholdEvents` (lines 25-31),
structured as recursion over the configured threshold list. -/
def checkLoop (s : EngineState) : List ℚ → EngineState × List EEvent
  | [] => (s, [])
  | t :: ts =>
    if t ≤ s.site.hazard ∧ t ∉ s.hazardState.triggeredThresholds then
      let s1 := { s with hazardState := { triggeredThresholds := t :: s.hazardState.triggeredThresholds } }
      let roll := rollThresholdEffects s1
      let rest := checkLoop roll.1 ts
      (rest.1, .HazardThreshold s.timeSec t :: (roll.2 ++ rest.2))
    else checkLoop s ts

/-- hazard.ts `checkThresholdEvents(site, hazardState, config, ...)` with
the engine's callbacks inlined. -/
def checkThresholdEvents (s : EngineState) : EngineState × List EEvent :=
  checkLoop s s.config.hazardThresholds

/-- engine.ts `tickHazard(currentItemHazardPerSec, dtSec, emit)`. -/
def tickHazard (s : EngineState) (currentItemHazardPerSec dtSec : ℚ) : EngineState × List EEvent :=
  let stance := STANCE_MODIFIERS s.options.stance
  let hazardPerSec := currentItemHazardPerSec * stance.hazardMultiplier
  let s := { s with site := addHazard s.site (hazardPerSec * dtSec) s.config }
  checkThresholdEvents s

/-- The failure reasons `canExtract` can report (engine.ts:83-88). -/
inductive SkipReason where
  | RequiresCrane | RequiresCutter | InsufficientCargo
deriving DecidableEq, Repr

/-- The `reason` strings of engine.ts `canExtract`. -/
def reasonMessage : SkipReason → String
  | .RequiresCrane => "Requires Crane"
  | .RequiresCutter => "Requires Cutter"
  | .InsufficientCargo => "Insufficient cargo space"

/-- engine.ts `canExtract(node)`: `none` is `ok: true`.  Note the source
returns ok when cargo does not fit but `waitForSpace` is set. -/
def canExtract (s : EngineState) (node : LootNode) : Option SkipReason :=
  if node.requiresTool = some .Crane ∧ s.tools.hasCrane = false then some .RequiresCrane
  else if node.requiresTool = some .Cutter ∧ s.tools.hasCutter = false then some .RequiresCutter
  else
    let fits := s.cargo.usedMassKg + node.massKg ≤ s.cargo.maxMassKg ∧
      s.cargo.usedVolumeM3 + node.volumeM3 ≤ s.cargo.maxVolumeM3
    if ¬fits ∧ s.options.waitForSpace = false then some .InsufficientCargo
    else none

/-- engine.ts `consumeCargo(node)`. -/
def consumeCargo (s : EngineState) (node : LootNode) : EngineState :=
  { s with cargo := { s.cargo with
      usedMassKg := s.cargo.usedMassKg + node.massKg,
      usedVolumeM3 := s.cargo.usedVolumeM3 + node.volumeM3 } }

/-- engine.ts `removeNodeFromSite(nodeId)`: filter the node out and set
`exhausted` when the collection becomes empty. -/
def removeNodeFromSite (s : EngineState) (nodeId : NodeId) : EngineState :=
  let nodes1 := s.site.nodes.filter (fun i => i != nodeId)
  let site1 := { s.site with nodes := nodes1 }
  let site2 := if nodes1.length = 0 then { site1 with exhausted := true } else site1
  { s with site := site2 }

/-- The while-loop of engine.ts `startNextNode` (lines 107-131), recursing
on the queue; the state's `queue` field always equals the list argument. -/
def startLoop (s : EngineState) : List NodeId → EngineState × List EEvent
  | [] => ({ s with isRunning := false }, [.Completed s.timeSec])
  | nid :: rest =>
    if s.site.nodes.contains nid = false then
      startLoop { s with queue := rest } rest
    else
      let node := getNode s.heap nid
      match canExtract s node with
      | some reason =>
        if s.options.waitForSpace = false ∨ reason ≠ .InsufficientCargo then
          let rec1 := startLoop { s with queue := rest } rest
          (rec1.1, .ItemSkipped s.timeSec node (reasonMessage reason) :: rec1.2)
        else
          (s, [])
      | none =>
        let stance := STANCE_MODIFIERS s.options.stance
        ({ s with currentNode := some nid,
                  currentNodeTotalSec := max 0.5 (node.extractTimeSec * stance.timeMultiplier),
                  currentNodeProgressSec := 0 },
         [.ItemStarted s.timeSec node 0])

/-- engine.ts `startNextNode(emit)`. -/
def startNextNode (s : EngineState) : EngineState × List EEvent :=
  let s := { s with currentNode := none, currentNodeProgressSec := 0, currentNodeTotalSec := 0 }
  startLoop s s.queue

/-- Model of `Math.ceil((dur * tickRateHz) || 1)` as a JS iteration count: a falsy
(zero) product becomes 1 before the ceiling; a negative count runs the for
loop zero times. -/
def stabilizeTickCount (x : ℚ) : ℕ :=
  (if x = 0 then 1 else Int.ceil x).toNat

/-- Iterate `tickHazard(0, 1 / tickRateHz)` a fixed number of times
(engine.ts:147-149). -/
def stabilizeTicks (s : EngineState) : ℕ → EngineState × List EEvent
  | 0 => (s, [])
  | k + 1 =>
    let th := tickHazard s 0 (1 / s.config.tickRateHz)
    let rest := stabilizeTicks th.1 k
    (rest.1, th.2 ++ rest.2)

/-- engine.ts `maybeStabilize(emit, dtSec)` (the `dtSec` parameter is
unused in the source). -/
def maybeStabilize (s : EngineState) : EngineState × List EEvent :=
  if s.site.stabilizedVolatiles = false ∧ s.options.autoStabilizeVolatiles then
    let dur := s.config.stabilizeTimeSec
    let s := { s with site := { s.site with stabilizedVolatiles := true } }
    let ticks := stabilizeTickCount (dur * s.config.tickRateHz)
    let run := stabilizeTicks s ticks
    (run.1, .StabilizedVolatiles s.timeSec :: run.2)
  else (s, [])

/-- The tail of engine.ts `runStep` once an active node is at hand
(lines 191-221). -/
def runStepActive (s : EngineState) (nid : NodeId) (dtSec : ℚ) : EngineState × List EEvent :=
  let node := getNode s.heap nid
  let th := tickHazard s node.baseHazardPerSec dtSec
  let evsH := th.2
  let s := { th.1 with currentNodeProgressSec := th.1.currentNodeProgressSec + dtSec }
  let progress := clamp (s.currentNodeProgressSec / s.currentNodeTotalSec) 0 1
  let evsP := evsH ++ [.ItemProgress s.timeSec (getNode s.heap nid) progress]
  if 1 ≤ progress then
    match canExtract s (getNode s.heap nid) with
    | some reason =>
      let s := { s with queue := s.queue.tail, currentNode := none }
      (s, evsP ++ [.ItemSkipped s.timeSec (getNode s.heap nid) (reasonMessage reason)])
    | none =>
      let stance := STANCE_MODIFIERS s.options.stance
      let s := { s with heap := (updateNode s.heap nid
        (fun n => { n with condition := clamp (n.condition + stance.conditionDelta) 0 100 })) }
      let node1 := getNode s.heap nid
      let s := consumeCargo s node1
      let s := removeNodeFromSite s nid
      let s := { s with queue := s.queue.tail, currentNode := none }
      (s, evsP ++ [.ItemTransferred s.timeSec node1])
  else (s, evsP)

/-- The body of engine.ts `runStep` after the clock advance (steps 2-5 of
the per-step algorithm, lines 184-221): select a node if none is active
(returning early on Completed or when holding for space), then run the
active-node work. -/
def runStepGo (s : EngineState) (dtSec : ℚ) : EngineState × List EEvent :=
  match s.currentNode with
  | some nid => runStepActive s nid dtSec
  | none =>
    let sn := startNextNode s
    if sn.1.isRunning = false then sn
    else
      match sn.1.currentNode with
      | none => sn
      | some nid =>
        let act := runStepActive sn.1 nid dtSec
        (act.1, sn.2 ++ act.2)

/-- engine.ts `runStep(emit)`: no-op unless running, else advance the clock
by one tick and run the step body. -/
def runStep (s : EngineState) : EngineState × List EEvent :=
  if s.isRunning = false then (s, [])
  else
    let dtSec := 1 / s.config.tickRateHz
    runStepGo { s with timeSec := s.timeSec + dtSec } dtSec

/-- engine.ts `start(emit)`. -/
def start (s : EngineState) : EngineState × List EEvent :=
  if s.isRunning then (s, [])
  else maybeStabilize { s with isRunning := true }

/-- engine.ts `abort(emit)`. -/
def abort (s : EngineState) : EngineState × List EEvent :=
  if s.isRunning = false then (s, [])
  else ({ s with isRunning := false }, [.Aborted s.timeSec])

/-- engine.ts `enqueue(nodes)`: push each node whose id is found in the
site's live collection. -/
def enqueue (s : EngineState) (nids : List NodeId) : EngineState :=
  nids.foldl (fun acc n =>
    if acc.site.nodes.contains n then { acc with queue := acc.queue ++ [n] } else acc) s

/-- engine.ts `getQueue()` (a copy of the queue). -/
def getQueue (s : EngineState) : List NodeId := s.queue

/-- engine.ts `clearQueue()`. -/
def clearQueue (s : EngineState) : EngineState := { s with queue := [] }

/-- engine.ts `reorderQueue(index, newIndex)`: out-of-range `index` is a
no-op; the destination is clamped into the bounds of the shortened queue. -/
def reorderQueue (s : EngineState) (index newIndex : ℤ) : EngineState :=
  if index < 0 ∨ (s.queue.length : ℤ) ≤ index then s
  else
    match s.queue.get? index.toNat with
    | none => s
    | some item =>
      let q := s.queue.eraseIdx index.toNat
      let dest := (max 0 (min newIndex (q.length : ℤ))).toNat
      { s with queue := q.insertIdx dest item }

/-- The engine constructor (engine.ts:41-47).  The caller supplies the
already-merged configuration (`{...DEFAULT_SIM_CONFIG, ...init.config}`),
the heap of node objects the site refers into, and the random source. -/
def mkEngine (heap : List LootNode) (site : Site) (cargo : CargoState)
    (tools : ToolsState) (options : OperationOptions)
    (config : SimulationConfig) (rng : List ℚ) : EngineState where
  heap := heap
  site := site
  cargo := cargo
  tools := tools
  options := options
  config := config
  queue := []
  isRunning := false
  timeSec := 0
  currentNodeProgressSec := 0
  currentNodeTotalSec := 0
  currentNode := none
  hazardState := createHazardState
  rng := rng

/-- autoQueue.ts `AutoQueuePriorities`. -/
structure AutoQueuePriorities where
  preferredTags : List LootTag
deriving DecidableEq, Repr

/-- The greedy fill loop of autoQueue.ts (lines 22-34), recursing over the
ranked candidates with the running count/mass/volume totals. -/
def autoFill (maxItems : ℕ) (maxMass maxVol : ℚ) :
    List LootNode → ℕ → ℚ → ℚ → List LootNode
  | [], _, _, _ => []
  | n :: rest, count, mass, vol =>
    if maxItems ≤ count then []
    else if mass + n.massKg ≤ maxMass ∧ vol + n.volumeM3 ≤ maxVol then
      n :: autoFill maxItems maxMass maxVol rest (count + 1) (mass + n.massKg) (vol + n.volumeM3)
    else autoFill maxItems maxMass maxVol rest count mass vol

/-- autoQueue.ts `computeAutoQueue(nodes, cargo, priorities, maxItems)`:
filter to positive value, score, stable sort descending by score, then
greedily fill within the cargo maximums.  This function reads node objects
directly, so it takes node values like the source takes the array. -/
def computeAutoQueue (nodes : List LootNode) (cargo : CargoState)
    (priorities : AutoQueuePriorities) (maxItems : ℕ := 20) : List LootNode :=
  let preferred := priorities.preferredTags.take 3
  let scored := (nodes.filter (fun n => 0 < n.value)).map (fun n =>
    (n, weightedValuePerKg n.value n.massKg (n.tags.any (fun t => preferred.contains t))))
  let ranked := (scored.mergeSort (fun a b => b.2 ≤ a.2)).map Prod.fst
  autoFill maxItems cargo.maxMassKg cargo.maxVolumeM3 ranked 0 cargo.usedMassKg cargo.usedVolumeM3

/-- One public engine operation, for stating properties of arbitrary
operation sequences. -/
inductive Op where
  | enqueue (nids : List NodeId)
  | reorderQueue (index newIndex : ℤ)
  | clearQueue
  | start
  | runStep
  | abort
deriving DecidableEq, Repr

/-- Apply one operation. -/
def applyOp (s : EngineState) : Op → EngineState × List EEvent
  | .enqueue nids => (enqueue s nids, [])
  | .reorderQueue i j => (reorderQueue s i j, [])
  | .clearQueue => (clearQueue s, [])
  | .start => start s
  | .runStep => runStep s
  | .abort => abort s

/-- Run a list of operations, concatenating the emitted events. -/
def runOps (s : EngineState) : List Op → EngineState × List EEvent
  | [] => (s, [])
  | op :: ops =>
    let a := applyOp s op
    let rest := runOps a.1 ops
    (rest.1, a.2 ++ rest.2)

/-- Run `runStep` a fixed number of times, concatenating events. -/
def runSteps (s : EngineState) : ℕ → EngineState × List EEvent
  | 0 => (s, [])
  | k + 1 =>
    let a := runStep s
    let rest := runSteps a.1 k
    (rest.1, a.2 ++ rest.2)

/-! The IEEE-754 binary64 model.  JS numbers are binary64 doubles, so the
per-step timing of the extraction scenario depends on floating-point
accumulation error; the functions below re-run the engine-step code with
every arithmetic operation rounded to the nearest double.  All the values
arising in this development lie well inside binary64's normal range, so
overflow and subnormal rounding never occur and a double is represented
exactly by its rational value. -/

/-- Integer powers of two, as rationals. -/
def pow2 : ℤ → ℚ
  | .ofNat k => (2 : ℚ) ^ k
  | .negSucc k => ((2 : ℚ) ^ (k + 1))⁻¹

/-- The floor of the base-two logarithm, by structural recursion on a fuel
bound (so that it evaluates by kernel reduction alone): with fuel at least
the bit length of `n`, `log2Aux fuel n` is the position of `n`'s leading
bit. -/
def log2Aux : ℕ → ℕ → ℕ
  | 0, _ => 0
  | fuel + 1, n => if 2 ≤ n then log2Aux fuel (n / 2) + 1 else 0

/-- The floor of the base-two logarithm of a natural number.  Fuel 300
covers every number below `2 ^ 300`; all numerators and denominators
arising from binary64 values in this development are far smaller. -/
def natLog2 (n : ℕ) : ℕ := log2Aux 300 n

/-- The binade of a positive rational: the unique `e` with
`2 ^ e ≤ q < 2 ^ (e + 1)`.  The base-two logarithms of the numerator and
denominator locate `e` within one, and one comparison settles it. -/
def floorLog2 (q : ℚ) : ℤ :=
  let e0 : ℤ := (natLog2 q.num.toNat : ℤ) - (natLog2 q.den : ℤ)
  if q < pow2 e0 then e0 - 1 else e0

/-- Rounding to the nearest integer, ties to the even neighbour — the
IEEE-754 default rounding direction. -/
def roundHalfEven (x : ℚ) : ℤ :=
  let f := Int.floor x
  let r := x - f
  if r < 1 / 2 then f
  else if 1 / 2 < r then f + 1
  else if f % 2 = 0 then f else f + 1

/-- Rounding of a positive rational to the nearest binary64 double (53
significant bits): scale into the binade, round the 53-bit significand
half-to-even, scale back. -/
def flRoundPos (q : ℚ) : ℚ :=
  let e := floorLog2 q
  let m := roundHalfEven (q * pow2 (52 - e))
  (m : ℚ) * pow2 (e - 52)

/-- Rounding of a rational to the nearest binary64 double. -/
def fl64 (q : ℚ) : ℚ :=
  if q = 0 then 0
  else if q < 0 then - flRoundPos (-q)
  else flRoundPos q

/-- Double addition: exact sum, rounded. -/
def fadd (a b : ℚ) : ℚ := fl64 (a + b)

/-- Double multiplication: exact product, rounded. -/
def fmul (a b : ℚ) : ℚ := fl64 (a * b)

/-- Double division: exact quotient, rounded. -/
def fdiv (a b : ℚ) : ℚ := fl64 (a / b)

/-- hazard.ts `addHazard` under double arithmetic (`Math.max`/`Math.min`
are exact, so `clamp` needs no rounding). -/
def addHazardD (site : Site) (amount : ℚ) (config : SimulationConfig) : Site :=
  { site with hazard := clamp (fadd site.hazard amount) config.hazardClampMin config.hazardClampMax }

/-- engine.ts `tickHazard` under double arithmetic.  The threshold check is
shared with the exact model: its comparisons are exact, and the effect
passes perform only integer-step arithmetic on exactly representable
values, where double and exact arithmetic agree. -/
def tickHazardD (s : EngineState) (currentItemHazardPerSec dtSec : ℚ) : EngineState × List EEvent :=
  let stance := STANCE_MODIFIERS s.options.stance
  let hazardPerSec := fmul currentItemHazardPerSec stance.hazardMultiplier
  let s := { s with site := addHazardD s.site (fmul hazardPerSec dtSec) s.config }
  checkThresholdEvents s

/-- engine.ts `canExtract` under double arithmetic (the capacity sums are
double additions; the comparisons are exact). -/
def canExtractD (s : EngineState) (node : LootNode) : Option SkipReason :=
  if node.requiresTool = some .Crane ∧ s.tools.hasCrane = false then some .RequiresCrane
  else if node.requiresTool = some .Cutter ∧ s.tools.hasCutter = false then some .RequiresCutter
  else
    let fits := fadd s.cargo.usedMassKg node.massKg ≤ s.cargo.maxMassKg ∧
      fadd s.cargo.usedVolumeM3 node.volumeM3 ≤ s.cargo.maxVolumeM3
    if ¬fits ∧ s.options.waitForSpace = false then some .InsufficientCargo
    else none

/-- engine.ts `consumeCargo` under double arithmetic. -/
def consumeCargoD (s : EngineState) (node : LootNode) : EngineState :=
  { s with cargo := { s.cargo with
      usedMassKg := fadd s.cargo.usedMassKg node.massKg,
      usedVolumeM3 := fadd s.cargo.usedVolumeM3 node.volumeM3 } }

/-- The while-loop of engine.ts `startNextNode` under double arithmetic
(the extraction-time product is a double multiplication; `Math.max` is
exact). -/
def startLoopD (s : EngineState) : List NodeId → EngineState × List EEvent
  | [] => ({ s with isRunning := false }, [.Completed s.timeSec])
  | nid :: rest =>
    if s.site.nodes.contains nid = false then
      startLoopD { s with queue := rest } rest
    else
      let node := getNode s.heap nid
      match canExtractD s node with
      | some reason =>
        if s.options.waitForSpace = false ∨ reason ≠ .InsufficientCargo then
          let rec1 := startLoopD { s with queue := rest } rest
          (rec1.1, .ItemSkipped s.timeSec node (reasonMessage reason) :: rec1.2)
        else
          (s, [])
      | none =>
        let stance := STANCE_MODIFIERS s.options.stance
        ({ s with currentNode := some nid,
                  currentNodeTotalSec := max 0.5 (fmul node.extractTimeSec stance.timeMultiplier),
                  currentNodeProgressSec := 0 },
         [.ItemStarted s.timeSec node 0])

/-- engine.ts `startNextNode` under double arithmetic. -/
def startNextNodeD (s : EngineState) : EngineState × List EEvent :=
  let s := { s with currentNode := none, currentNodeProgressSec := 0, currentNodeTotalSec := 0 }
  startLoopD s s.queue

/-- The stabilization tick loop (engine.ts:147-149) under double
arithmetic. -/
def stabilizeTicksD (s : EngineState) : ℕ → EngineState × List EEvent
  | 0 => (s, [])
  | k + 1 =>
    let th := tickHazardD s 0 (fdiv 1 s.config.tickRateHz)
    let rest := stabilizeTicksD th.1 k
    (rest.1, th.2 ++ rest.2)

/-- engine.ts `maybeStabilize` under double arithmetic. -/
def maybeStabilizeD (s : EngineState) : EngineState × List EEvent :=
  if s.site.stabilizedVolatiles = false ∧ s.options.autoStabilizeVolatiles then
    let dur := s.config.stabilizeTimeSec
    let s := { s with site := { s.site with stabilizedVolatiles := true } }
    let ticks := stabilizeTickCount (fmul dur s.config.tickRateHz)
    let run := stabilizeTicksD s ticks
    (run.1, .StabilizedVolatiles s.timeSec :: run.2)
  else (s, [])

/-- The active-node tail of engine.ts `runStep` (lines 191-221) under
double arithmetic: the progress accumulator grows by a double addition and
the progress ratio is a double division. -/
def runStepActiveD (s : EngineState) (nid : NodeId) (dtSec : ℚ) : EngineState × List EEvent :=
  let node := getNode s.heap nid
  let th := tickHazardD s node.baseHazardPerSec dtSec
  let evsH := th.2
  let s := { th.1 with currentNodeProgressSec := fadd th.1.currentNodeProgressSec dtSec }
  let progress := clamp (fdiv s.currentNodeProgressSec s.currentNodeTotalSec) 0 1
  let evsP := evsH ++ [.ItemProgress s.timeSec (getNode s.heap nid) progress]
  if 1 ≤ progress then
    match canExtractD s (getNode s.heap nid) with
    | some reason =>
      let s := { s with queue := s.queue.tail, currentNode := none }
      (s, evsP ++ [.ItemSkipped s.timeSec (getNode s.heap nid) (reasonMessage reason)])
    | none =>
      let stance := STANCE_MODIFIERS s.options.stance
      let s := { s with heap := (updateNode s.heap nid
        (fun n => { n with condition := clamp (fadd n.condition stance.conditionDelta) 0 100 })) }
      let node1 := getNode s.heap nid
      let s := consumeCargoD s node1
      let s := removeNodeFromSite s nid
      let s := { s with queue := s.queue.tail, currentNode := none }
      (s, evsP ++ [.ItemTransferred s.timeSec node1])
  else (s, evsP)

/-- The body of engine.ts `runStep` after the clock advance, under double
arithmetic. -/
def runStepGoD (s : EngineState) (dtSec : ℚ) : EngineState × List EEvent :=
  match s.currentNode with
  | some nid => runStepActiveD s nid dtSec
  | none =>
    let sn := startNextNodeD s
    if sn.1.isRunning = false then sn
    else
      match sn.1.currentNode with
      | none => sn
      | some nid =>
        let act := runStepActiveD sn.1 nid dtSec
        (act.1, sn.2 ++ act.2)

/-- engine.ts `runStep` under double arithmetic: the tick duration is the
double `1 / tickRateHz` and the clock advances by double additions. -/
def runStepD (s : EngineState) : EngineState × List EEvent :=
  if s.isRunning = false then (s, [])
  else
    let dtSec := fdiv 1 s.config.tickRateHz
    runStepGoD { s with timeSec := fadd s.timeSec dtSec } dtSec

/-- engine.ts `start` under double arithmetic. -/
def startD (s : EngineState) : EngineState × List EEvent :=
  if s.isRunning then (s, [])
  else maybeStabilizeD { s with isRunning := true }

/-- Run `runStepD` a fixed number of times, concatenating events. -/
def runStepsD (s : EngineState) : ℕ → EngineState × List EEvent
  | 0 => (s, [])
  | k + 1 =>
    let a := runStepD s
    let rest := runStepsD a.1 k
    (rest.1, a.2 ++ rest.2)

/-! Event classifiers used to state the claims. -/

/-- Is this event a `HazardThreshold`? -/
def isThrB : EEvent → Bool
  | .HazardThreshold _ _ => true
  | _ => false

/-- Is this event a `HazardThreshold` carrying the threshold value `t`? -/
def thrAt (t : ℚ) : EEvent → Bool
  | .HazardThreshold _ th => decide (th = t)
  | _ => false

/-- The number of `HazardThreshold t` events in a trace. -/
def ThrCount (t : ℚ) (evs : List EEvent) : ℕ :=
  evs.countP (thrAt t)

/-- The thresholds fired in a trace, in emission order. -/
def firedThresholds (evs : List EEvent) : List ℚ :=
  evs.filterMap (fun e => match e with
    | .HazardThreshold _ th => some th
    | _ => none)

/-- Is this event an `ItemStarted`? -/
def isStartedB : EEvent → Bool
  | .ItemStarted _ _ _ => true
  | _ => false

/-- Is this event an `ItemStarted` for the node with the given id? -/
def startedOf (nid : NodeId) : EEvent → Bool
  | .ItemStarted _ n _ => n.id == nid
  | _ => false

/-- Is this event an `ItemProgress`? -/
def isProgressB : EEvent → Bool
  | .ItemProgress _ _ _ => true
  | _ => false

/-- The progress payload of an `ItemProgress` event. -/
def progressOf : EEvent → Option ℚ
  | .ItemProgress _ _ p => some p
  | _ => none

/-- Is this event an `ItemTransferred`? -/
def isTransferredB : EEvent → Bool
  | .ItemTransferred _ _ => true
  | _ => false

/-- Is this event a `Completed`? -/
def isCompletedB : EEvent → Bool
  | .Completed _ => true
  | _ => false

/-- Is this event a `NodeDestroyed` for the node with the given id? -/
def destroyedOf (nid : NodeId) : EEvent → Bool
  | .NodeDestroyed _ n _ => n.id == nid
  | _ => false

/-- Does this event carry (as `NodeDamaged`/`NodeDestroyed` payload) the
node with the given id? -/
def evMentions (nid : NodeId) : EEvent → Bool
  | .NodeDamaged _ n _ => n.id == nid
  | .NodeDestroyed _ n _ => n.id == nid
  | _ => false

/-! Invariant predicates. -/

/-- Every heap object with id `d` has its condition within [0,100]. -/
@[reducible] def CondOk (heap : List LootNode) (d : NodeId) : Prop :=
  ∀ n ∈ heap, n.id = d → 0 ≤ n.condition ∧ n.condition ≤ 100

/-- The configured clamp range is sane and the site's hazard lies in it. -/
def HazOk (s : EngineState) : Prop :=
  s.config.hazardClampMin ≤ s.config.hazardClampMax ∧
  s.config.hazardClampMin ≤ s.site.hazard ∧
  s.site.hazard ≤ s.config.hazardClampMax

/-- Every id in the site's live collection dereferences to a heap object. -/
@[reducible] def HeapClosed (s : EngineState) : Prop :=
  ∀ i ∈ s.site.nodes, (findNode s.heap i).isSome

/-- One program step fires the threshold `t` at most once, only when `t`
was not yet recorded, records it when fired, and never forgets recorded
thresholds. -/
def OnceStep (t : ℚ) (s s' : EngineState) (evs : List EEvent) : Prop :=
  s.hazardState.triggeredThresholds ⊆ s'.hazardState.triggeredThresholds ∧
  ThrCount t evs ≤ (if t ∈ s.hazardState.triggeredThresholds then 0 else 1) ∧
  (1 ≤ ThrCount t evs → t ∈ s'.hazardState.triggeredThresholds)

/-- What one stochastic-effect pass preserves: it never touches hazard,
the stabilized flag, the clock, configuration, options, tools or the
threshold bookkeeping, emits no `HazardThreshold` events, and keeps any
node's condition inside [0,100]. -/
def EffPreserves (d : NodeId) (s s' : EngineState) (evs : List EEvent) : Prop :=
  s'.site.hazard = s.site.hazard ∧
  s'.site.stabilizedVolatiles = s.site.stabilizedVolatiles ∧
  s'.timeSec = s.timeSec ∧
  s'.config = s.config ∧
  s'.options = s.options ∧
  s'.tools = s.tools ∧
  s'.hazardState = s.hazardState ∧
  (∀ e ∈ evs, isThrB e = false) ∧
  (CondOk s.heap d → CondOk s'.heap d)

/-- What one whole engine operation preserves. -/
def OpPreserves (t : ℚ) (d : NodeId) (s s' : EngineState) (evs : List EEvent) : Prop :=
  s'.config = s.config ∧
  s'.options = s.options ∧
  s'.tools = s.tools ∧
  OnceStep t s s' evs ∧
  (HazOk s → HazOk s') ∧
  (CondOk s.heap d → CondOk s'.heap d)

/-- Total mass of a list of nodes. -/
def sumMass (l : List LootNode) : ℚ := (l.map (fun n => n.massKg)).sum

/-- Total volume of a list of nodes. -/
def sumVol (l : List LootNode) : ℚ := (l.map (fun n => n.volumeM3)).sum

/-! Concrete scenario fixtures used by the counterexamples, bug
demonstrations and witnesses. -/

/-- A wreck site holding the given nodes at the given hazard level. -/
def siteWith (nodes : List NodeId) (hazard : ℚ) : Site where
  id := "site-1"
  siteType := .Wreck
  posX := 0
  posY := 0
  nodes := nodes
  hazard := hazard
  baselineNoisePerSec := 1
  stabilizedVolatiles := false
  exhausted := false
  createdAt := none
  integrity := none

/-- Both tools available. -/
def toolsAll : ToolsState := { hasCrane := true, hasCutter := true }

/-- Normal stance, no waiting, no stabilization. -/
def optsNormal : OperationOptions :=
  { stance := .Normal, waitForSpace := false, autoStabilizeVolatiles := false }

/-- The C2 scenario node: mass 10, volume 1, value 100, extract time 10 s,
no tool, no tags, zero hazard contribution. -/
def c2node : LootNode where
  id := "n1"
  name := "Supply Crate"
  kind := .Crate
  tags := []
  massKg := 10
  volumeM3 := 1
  condition := 100
  value := 100
  extractTimeSec := 10
  baseNoisePerSec := 0
  baseHazardPerSec := 0
  requiresTool := none
  volatile := none

/-- Ample cargo for the C2 scenario. -/
def c2cargo : CargoState :=
  { maxMassKg := 1000, maxVolumeM3 := 100, usedMassKg := 0, usedVolumeM3 := 0 }

/-- The C2 engine right after `enqueue([n1]); start()`. -/
def c2start : EngineState :=
  (start (enqueue
    (mkEngine [c2node] (siteWith ["n1"] 0) c2cargo toolsAll optsNormal DEFAULT_SIM_CONFIG [])
    ["n1"])).1

/-- The C2 engine right after `enqueue([n1]); start()`, in the binary64
model (`enqueue` performs no arithmetic and is shared). -/
def c2startD : EngineState :=
  (startD (enqueue
    (mkEngine [c2node] (siteWith ["n1"] 0) c2cargo toolsAll optsNormal DEFAULT_SIM_CONFIG [])
    ["n1"])).1

/-- A volatile node used by the C1 and C3 scenarios. -/
def cxVolatileNode : LootNode where
  id := "A"
  name := "Ammo Crate"
  kind := .Crate
  tags := [.Volatile]
  massKg := 5
  volumeM3 := 1
  condition := 80
  value := 100
  extractTimeSec := 10
  baseNoisePerSec := 0
  baseHazardPerSec := 0
  requiresTool := none
  volatile := some true

/-- C1 scenario: the engine is mid-extraction of the sole (volatile) node,
hazard sits exactly at the first default threshold (30), no threshold has
fired yet, and the next random draw (0) makes the node detonate. -/
def c1state : EngineState :=
  { mkEngine [cxVolatileNode] (siteWith ["A"] 30) c2cargo toolsAll optsNormal
      DEFAULT_SIM_CONFIG [0, 0, 0, 0, 0] with
    isRunning := true, queue := ["A"], currentNode := some "A",
    currentNodeTotalSec := 10, currentNodeProgressSec := 1 }

/-- Second volatile node for the C3 scenario; 25 condition, so one blast
hit (-25) destroys it. -/
def c3nodeB : LootNode :=
  { cxVolatileNode with id := "B", name := "Fuel Drum", condition := 25 }

/-- C3 configuration: volatile explosions are certain, blast radius 1. -/
def c3config : SimulationConfig :=
  { DEFAULT_SIM_CONFIG with volatileExplodeChanceAtThreshold := 1, volatileRadiusCount := 1 }

/-- C3 scenario state: nodes A and B both volatile; draws [0,0,0,0] make A
detonate, hit B with its blast (destroying it), then let the already
destroyed B roll its own detonation. -/
def c3state : EngineState :=
  { mkEngine [cxVolatileNode, c3nodeB] (siteWith ["A", "B"] 30) c2cargo toolsAll optsNormal
      c3config [0, 0, 0, 0] with isRunning := true }

/-- C8 options: `waitForSpace` enabled. -/
def c8opts : OperationOptions :=
  { stance := .Normal, waitForSpace := true, autoStabilizeVolatiles := false }

/-- C8 cargo: mass capacity already fully used. -/
def c8cargo : CargoState :=
  { maxMassKg := 100, maxVolumeM3 := 10, usedMassKg := 100, usedVolumeM3 := 0 }

/-- C8 node: mass 5, so it does not fit in the full cargo. -/
def c8node : LootNode :=
  { c2node with id := "w1", name := "Spare Part", massKg := 5 }

/-- C8 scenario: running engine, full cargo, `waitForSpace = true`, one
queued node present in the site that needs no tool. -/
def c8state : EngineState :=
  { mkEngine [c8node] (siteWith ["w1"] 0) c8cargo toolsAll c8opts DEFAULT_SIM_CONFIG [] with
    isRunning := true, queue := ["w1"] }

/-- C7 counterexample cargo: usage already above the maximum. -/
def c7cargoOver : CargoState :=
  { maxMassKg := 100, maxVolumeM3 := 10, usedMassKg := 150, usedVolumeM3 := 0 }

/-- C9 witness state: like `c1state` but idle with auto-stabilization
enabled, so `start` runs the stabilization catch-up ticks. -/
def c9state : EngineState :=
  { c1state with
    options := { stance := .Normal, waitForSpace := false, autoStabilizeVolatiles := true },
    isRunning := false }

/-! Basic lemmas about the numeric helpers and the bookkeeping
predicates. -/

theorem clamp_mem (value lo hi : ℚ) (h : lo ≤ hi) :
    lo ≤ clamp value lo hi ∧ clamp value lo hi ≤ hi := by
  unfold clamp
  constructor
  · exact le_max_left _ _
  · exact max_le h (min_le_left _ _)

theorem clamp_eq_self (x lo hi : ℚ) (h1 : lo ≤ x) (h2 : x ≤ hi) :
    clamp x lo hi = x := by
  unfold clamp
  rw [min_eq_right h2, max_eq_right h1]

theorem ThrCount_append (t : ℚ) (e1 e2 : List EEvent) :
    ThrCount t (e1 ++ e2) = ThrCount t e1 + ThrCount t e2 :=
  List.countP_append _ _ _

theorem ThrCount_eq_zero (t : ℚ) (evs : List EEvent)
    (h : ∀ e ∈ evs, isThrB e = false) : ThrCount t evs = 0 := by
  refine List.countP_eq_zero.2 ?_
  intro e he
  have h1 := h e he
  cases e <;> simp_all [isThrB, thrAt]

theorem OnceStep_refl (t : ℚ) (s : EngineState) : OnceStep t s s [] := by
  refine ⟨fun a ha => ha, ?_, ?_⟩
  · simp [ThrCount]
  · simp [ThrCount]

theorem OnceStep_comp {t : ℚ} {s1 s2 s3 : EngineState} {e1 e2 : List EEvent}
    (h1 : OnceStep t s1 s2 e1) (h2 : OnceStep t s2 s3 e2) :
    OnceStep t s1 s3 (e1 ++ e2) := by
  obtain ⟨sub1, cnt1, rec1⟩ := h1
  obtain ⟨sub2, cnt2, rec2⟩ := h2
  refine ⟨fun a ha => sub2 (sub1 ha), ?_, ?_⟩
  · rw [ThrCount_append]
    by_cases hm : t ∈ s1.hazardState.triggeredThresholds
    · have hm2 : t ∈ s2.hazardState.triggeredThresholds := sub1 hm
      simp only [hm, if_pos] at cnt1 ⊢
      simp only [hm2, if_pos] at cnt2
      omega
    · simp only [hm, if_neg, not_false_iff] at cnt1 ⊢
      rcases Nat.eq_zero_or_pos (ThrCount t e1) with hz | hp
      · rw [hz]
        by_cases hm2 : t ∈ s2.hazardState.triggeredThresholds
        · simp only [hm2, if_pos] at cnt2; omega
        · simp only [hm2, if_neg, not_false_iff] at cnt2; omega
      · have ht2 : t ∈ s2.hazardState.triggeredThresholds := rec1 hp
        simp only [ht2, if_pos] at cnt2
        omega
  · intro h
    rw [ThrCount_append] at h
    rcases Nat.eq_zero_or_pos (ThrCount t e2) with hz | hp
    · have : 1 ≤ ThrCount t e1 := by omega
      exact sub2 (rec1 this)
    · exact rec2 hp

theorem OnceStep_silent {t : ℚ} {s s' : EngineState} {evs : List EEvent}
    (hst : s'.hazardState = s.hazardState)
    (hevs : ∀ e ∈ evs, isThrB e = false) : OnceStep t s s' evs := by
  refine ⟨by rw [hst]; exact fun a ha => ha, ?_, ?_⟩
  · rw [ThrCount_eq_zero t evs hevs]
    split <;> omega
  · rw [ThrCount_eq_zero t evs hevs]
    omega

theorem CondOk_updateNode {heap : List LootNode} {d nid : NodeId}
    {f : LootNode → LootNode}
    (hid : ∀ n, (f n).id = n.id)
    (hcond : ∀ n, 0 ≤ n.condition → n.condition ≤ 100 →
      0 ≤ (f n).condition ∧ (f n).condition ≤ 100)
    (h : CondOk heap d) : CondOk (updateNode heap nid f) d := by
  intro m hm hmd
  unfold updateNode at hm
  obtain ⟨n, hn, rfl⟩ := List.mem_map.1 hm
  by_cases hcase : n.id = nid
  · simp only [hcase, if_pos] at hmd ⊢
    have hnd : n.id = d := by rw [← hmd, hid n]
    exact hcond n (h n hn hnd).1 (h n hn hnd).2
  · simp only [hcase, if_neg, not_false_iff] at hmd ⊢
    exact h n hn hmd

theorem findNode_id {heap : List LootNode} {nid : NodeId} {n : LootNode}
    (h : findNode heap nid = some n) : n.id = nid := by
  have := List.find?_some h
  simpa using this

theorem findNode_updateNode (heap : List LootNode) (nid i : NodeId)
    (f : LootNode → LootNode) (hid : ∀ n, (f n).id = n.id) :
    findNode (updateNode heap nid f) i =
      (findNode heap i).map (fun n => if n.id = nid then f n else n) := by
  induction heap with
  | nil => rfl
  | cons n t ih =>
    have hgid : (if n.id = nid then f n else n).id = n.id := by
      by_cases hcase : n.id = nid <;> simp [hcase, hid n]
    by_cases hi : n.id = i
    · have hgid_i : (if n.id = nid then f n else n).id = i := by rw [hgid, hi]
      have h1 : findNode (updateNode (n :: t) nid f) i = some (if n.id = nid then f n else n) := by
        unfold updateNode findNode
        rw [List.map_cons]
        exact List.find?_cons_of_pos _ (by simp [hgid_i])
      have h2 : findNode (n :: t) i = some n := by
        unfold findNode
        exact List.find?_cons_of_pos _ (by simp [hi])
      rw [h1, h2]
      rfl
    · have hgid_ne : ¬((if n.id = nid then f n else n).id = i) := by rw [hgid]; exact hi
      have h1 : findNode (updateNode (n :: t) nid f) i = findNode (updateNode t nid f) i := by
        unfold updateNode findNode
        rw [List.map_cons]
        exact List.find?_cons_of_neg _ (by simp [hgid_ne])
      have h2 : findNode (n :: t) i = findNode t i := by
        unfold findNode
        exact List.find?_cons_of_neg _ (by simp [hi])
      rw [h1, h2, ih]

theorem findNode_updateNode_ne {heap : List LootNode} {nid i : NodeId}
    {f : LootNode → LootNode} (hid : ∀ n, (f n).id = n.id) (hne : i ≠ nid) :
    findNode (updateNode heap nid f) i = findNode heap i := by
  rw [findNode_updateNode heap nid i f hid]
  cases hfind : findNode heap i with
  | none => rfl
  | some n =>
    have : n.id = i := findNode_id hfind
    simp [this, hne]

theorem isSome_findNode_updateNode (heap : List LootNode) (nid i : NodeId)
    (f : LootNode → LootNode) (hid : ∀ n, (f n).id = n.id) :
    (findNode (updateNode heap nid f) i).isSome = (findNode heap i).isSome := by
  rw [findNode_updateNode heap nid i f hid]
  cases findNode heap i <;> rfl

/-! Generic machinery for the event-accumulating folds of the stochastic
effect passes. -/

theorem foldl_evshift {α : Type} (step : EngineState × List EEvent → α → EngineState × List EEvent)
    (shift : ∀ s evs x, step (s, evs) x = ((step (s, []) x).1, evs ++ (step (s, []) x).2)) :
    ∀ (l : List α) (s : EngineState) (evs0 : List EEvent),
      l.foldl step (s, evs0) = ((l.foldl step (s, [])).1, evs0 ++ (l.foldl step (s, [])).2) := by
  intro l
  induction l with
  | nil => intro s evs0; simp
  | cons x tl ih =>
    intro s evs0
    rw [List.foldl_cons, List.foldl_cons]
    rw [shift s evs0 x]
    rw [ih (step (s, []) x).1 (evs0 ++ (step (s, []) x).2)]
    rw [show step (s, []) x = ((step (s, []) x).1, (step (s, []) x).2) from rfl]
    rw [ih (step (s, []) x).1 (step (s, []) x).2]
    simp

theorem foldl_rel {α : Type} (R : EngineState → EngineState → List EEvent → Prop)
    (hrefl : ∀ s, R s s [])
    (hcomp : ∀ s1 s2 s3 e1 e2, R s1 s2 e1 → R s2 s3 e2 → R s1 s3 (e1 ++ e2))
    (step : EngineState × List EEvent → α → EngineState × List EEvent)
    (shift : ∀ s evs x, step (s, evs) x = ((step (s, []) x).1, evs ++ (step (s, []) x).2)) :
    ∀ (l : List α), (∀ s x, x ∈ l → R s (step (s, []) x).1 (step (s, []) x).2) →
      ∀ s, R s (l.foldl step (s, [])).1 (l.foldl step (s, [])).2 := by
  intro l
  induction l with
  | nil => intro _ s; simpa using hrefl s
  | cons x tl ih =>
    intro hstep s
    rw [List.foldl_cons]
    have hx := hstep s x (List.mem_cons_self x tl)
    have heq := foldl_evshift step shift tl (step (s, []) x).1 (step (s, []) x).2
    rw [show step (s, []) x = ((step (s, []) x).1, (step (s, []) x).2) from rfl, heq]
    exact hcomp _ _ _ _ _ hx
      (ih (fun s' y hy => hstep s' y (List.mem_cons_of_mem x hy)) (step (s, []) x).1)

theorem EffPreserves_refl (d : NodeId) (s : EngineState) : EffPreserves d s s [] := by
  refine ⟨rfl, rfl, rfl, rfl, rfl, rfl, rfl, ?_, fun h => h⟩
  intro e he
  cases he

theorem EffPreserves_comp {d : NodeId} {s1 s2 s3 : EngineState} {e1 e2 : List EEvent}
    (h1 : EffPreserves d s1 s2 e1) (h2 : EffPreserves d s2 s3 e2) :
    EffPreserves d s1 s3 (e1 ++ e2) := by
  obtain ⟨a1, b1, c1, d1, o1, t1, g1, v1, k1⟩ := h1
  obtain ⟨a2, b2, c2, d2, o2, t2, g2, v2, k2⟩ := h2
  refine ⟨a2.trans a1, b2.trans b1, c2.trans c1, d2.trans d1, o2.trans o1,
    t2.trans t1, g2.trans g1, ?_, fun h => k2 (k1 h)⟩
  intro e he
  rcases List.mem_append.1 he with h | h
  · exact v1 e h
  · exact v2 e h

theorem stepEv_shift {alpha : Type} (core : EngineState → alpha → EngineState × List EEvent)
    (s : EngineState) (evs : List EEvent) (x : alpha) :
    stepEv core (s, evs) x = ((stepEv core (s, []) x).1, evs ++ (stepEv core (s, []) x).2) := by
  cases hc : core s x with
  | mk s1 new => simp [stepEv, hc]

theorem stepEv_nil {alpha : Type} (core : EngineState → alpha → EngineState × List EEvent)
    (s : EngineState) (x : alpha) : stepEv core (s, []) x = core s x := by
  cases hc : core s x with
  | mk s1 new => simp [stepEv, hc]

theorem foldl_core_rel {alpha : Type} (R : EngineState → EngineState → List EEvent → Prop)
    (hrefl : ∀ s, R s s [])
    (hcomp : ∀ s1 s2 s3 e1 e2, R s1 s2 e1 → R s2 s3 e2 → R s1 s3 (e1 ++ e2))
    (core : EngineState → alpha → EngineState × List EEvent) :
    ∀ (l : List alpha), (∀ s x, x ∈ l → R s (core s x).1 (core s x).2) →
      ∀ s, R s (l.foldl (stepEv core) (s, [])).1 (l.foldl (stepEv core) (s, [])).2 := by
  intro l hstep s
  refine foldl_rel R hrefl hcomp (stepEv core) (stepEv_shift core) l ?_ s
  intro s' x hx
  rw [stepEv_nil]
  exact hstep s' x hx

theorem blastCore_eff (d : NodeId) (s : EngineState) (x : NodeId) :
    EffPreserves d s (blastCore s x).1 (blastCore s x).2 := by
  have hcond : ∀ n : LootNode, 0 ≤ n.condition → n.condition ≤ 100 →
      0 ≤ max 0 (n.condition - 25) ∧ max 0 (n.condition - 25) ≤ 100 := by
    intro n h0 h100
    exact ⟨le_max_left _ _, max_le (by norm_num) (by linarith)⟩
  cases hrng : s.rng with
  | nil =>
    simp only [blastCore, drawRand, nextRand, hrng]
    split_ifs with h1 h2
    · exact ⟨rfl, rfl, rfl, rfl, rfl, rfl, rfl,
        (by intro e he; simp at he; rcases he with rfl | rfl <;> rfl),
        fun h => CondOk_updateNode (fun n => rfl) hcond h⟩
    · exact ⟨rfl, rfl, rfl, rfl, rfl, rfl, rfl,
        (by intro e he; simp at he; subst he; rfl),
        fun h => CondOk_updateNode (fun n => rfl) hcond h⟩
    · exact EffPreserves_refl d _
  | cons r rest =>
    simp only [blastCore, drawRand, nextRand, hrng]
    split_ifs with h1 h2
    · exact ⟨rfl, rfl, rfl, rfl, rfl, rfl, rfl,
        (by intro e he; simp at he; rcases he with rfl | rfl <;> rfl),
        fun h => CondOk_updateNode (fun n => rfl) hcond h⟩
    · exact ⟨rfl, rfl, rfl, rfl, rfl, rfl, rfl,
        (by intro e he; simp at he; subst he; rfl),
        fun h => CondOk_updateNode (fun n => rfl) hcond h⟩
    · exact ⟨rfl, rfl, rfl, rfl, rfl, rfl, rfl, (by intro e he; cases he), fun h => h⟩

theorem blastFold_eff (d : NodeId) (l : List NodeId) (s : EngineState) :
    EffPreserves d s (l.foldl blastStep (s, [])).1 (l.foldl blastStep (s, [])).2 :=
  foldl_core_rel (EffPreserves d) (EffPreserves_refl d)
    (fun _ _ _ _ _ => EffPreserves_comp) blastCore l
    (fun s' x _ => blastCore_eff d s' x) s

theorem explodeNode_eff (d : NodeId) (s : EngineState) (x : NodeId) :
    EffPreserves d s (explodeNode s x).1 (explodeNode s x).2 := by
  have h1 : EffPreserves d s
      { destroyNodeCallback s x with rng := (selectBlastNeighbors (destroyNodeCallback s x) x).2 }
      [.NodeDestroyed (destroyNodeCallback s x).timeSec (getNode s.heap x)
        ((getNode s.heap x).name ++ " detonated due to rising hazard.")] := by
    refine ⟨rfl, rfl, rfl, rfl, rfl, rfl, rfl, ?_, fun h => h⟩
    intro e he
    simp at he
    subst he
    rfl
  have h2 := blastFold_eff d
    (selectBlastNeighbors (destroyNodeCallback s x) x).1
    { destroyNodeCallback s x with rng := (selectBlastNeighbors (destroyNodeCallback s x) x).2 }
  exact EffPreserves_comp h1 h2

theorem volatileCore_eff (d : NodeId) (s : EngineState) (x : NodeId) :
    EffPreserves d s (volatileCore s x).1 (volatileCore s x).2 := by
  cases hrng : s.rng with
  | nil =>
    have h0 : EffPreserves d s { s with rng := ([] : List ℚ) } [] :=
      ⟨rfl, rfl, rfl, rfl, rfl, rfl, rfl, (by intro e he; cases he), fun h => h⟩
    simp only [volatileCore, drawRand, nextRand, hrng]
    split_ifs <;>
      first
        | exact EffPreserves_comp h0 (explodeNode_eff d _ x)
        | exact ⟨rfl, rfl, rfl, rfl, rfl, rfl, rfl, (by intro e he; cases he), fun h => h⟩
  | cons r rest =>
    have h0 : EffPreserves d s { s with rng := rest } [] :=
      ⟨rfl, rfl, rfl, rfl, rfl, rfl, rfl, (by intro e he; cases he), fun h => h⟩
    simp only [volatileCore, drawRand, nextRand, hrng]
    split_ifs <;>
      first
        | exact EffPreserves_comp h0 (explodeNode_eff d _ x)
        | exact ⟨rfl, rfl, rfl, rfl, rfl, rfl, rfl, (by intro e he; cases he), fun h => h⟩

theorem fragileCore_eff (d : NodeId) (s : EngineState) (x : NodeId) :
    EffPreserves d s (fragileCore s x).1 (fragileCore s x).2 := by
  have hcond : ∀ n : LootNode, 0 ≤ n.condition → n.condition ≤ 100 →
      0 ≤ max 0 (n.condition - 15) ∧ max 0 (n.condition - 15) ≤ 100 := by
    intro n h0 h100
    exact ⟨le_max_left _ _, max_le (by norm_num) (by linarith)⟩
  cases hrng : s.rng with
  | nil =>
    simp only [fragileCore, drawRand, nextRand, hrng]
    split_ifs with h1 h2
    · exact ⟨rfl, rfl, rfl, rfl, rfl, rfl, rfl,
        (by intro e he; simp at he; subst he; rfl),
        fun h => CondOk_updateNode (fun n => rfl) hcond h⟩
    · exact ⟨rfl, rfl, rfl, rfl, rfl, rfl, rfl, (by intro e he; cases he), fun h => h⟩
    · exact EffPreserves_refl d _
  | cons r rest =>
    simp only [fragileCore, drawRand, nextRand, hrng]
    split_ifs with h1 h2
    · exact ⟨rfl, rfl, rfl, rfl, rfl, rfl, rfl,
        (by intro e he; simp at he; subst he; rfl),
        fun h => CondOk_updateNode (fun n => rfl) hcond h⟩
    · exact ⟨rfl, rfl, rfl, rfl, rfl, rfl, rfl, (by intro e he; cases he), fun h => h⟩
    · exact EffPreserves_refl d _

theorem stallCore_eff (d : NodeId) (s : EngineState) (x : NodeId) :
    EffPreserves d s (stallCore s x).1 (stallCore s x).2 := by
  have hcond : ∀ n : LootNode, 0 ≤ n.condition → n.condition ≤ 100 →
      0 ≤ (n.condition : ℚ) ∧ (n.condition : ℚ) ≤ 100 := fun n h0 h100 => ⟨h0, h100⟩
  cases hrng : s.rng with
  | nil =>
    simp only [stallCore, drawRand, nextRand, hrng]
    split_ifs with h1
    · exact ⟨rfl, rfl, rfl, rfl, rfl, rfl, rfl,
        (by intro e he; simp at he; subst he; rfl),
        fun h => CondOk_updateNode (fun n => rfl) hcond h⟩
    · exact ⟨rfl, rfl, rfl, rfl, rfl, rfl, rfl, (by intro e he; cases he), fun h => h⟩
  | cons r rest =>
    simp only [stallCore, drawRand, nextRand, hrng]
    split_ifs with h1
    · exact ⟨rfl, rfl, rfl, rfl, rfl, rfl, rfl,
        (by intro e he; simp at he; subst he; rfl),
        fun h => CondOk_updateNode (fun n => rfl) hcond h⟩
    · exact ⟨rfl, rfl, rfl, rfl, rfl, rfl, rfl, (by intro e he; cases he), fun h => h⟩

theorem volatilePass_eff (d : NodeId) (s : EngineState) :
    EffPreserves d s (volatilePass s).1 (volatilePass s).2 := by
  unfold volatilePass
  exact foldl_core_rel (EffPreserves d) (EffPreserves_refl d)
    (fun _ _ _ _ _ => EffPreserves_comp) volatileCore _
    (fun s' x _ => volatileCore_eff d s' x) s

theorem fragilePass_eff (d : NodeId) (s : EngineState) :
    EffPreserves d s (fragilePass s).1 (fragilePass s).2 := by
  unfold fragilePass
  exact foldl_core_rel (EffPreserves d) (EffPreserves_refl d)
    (fun _ _ _ _ _ => EffPreserves_comp) fragileCore _
    (fun s' x _ => fragileCore_eff d s' x) s

theorem stallPass_eff (d : NodeId) (s : EngineState) :
    EffPreserves d s (stallPass s).1 (stallPass s).2 := by
  unfold stallPass
  exact foldl_core_rel (EffPreserves d) (EffPreserves_refl d)
    (fun _ _ _ _ _ => EffPreserves_comp) stallCore _
    (fun s' x _ => stallCore_eff d s' x) s

theorem roll_eff (d : NodeId) (s : EngineState) :
    EffPreserves d s (rollThresholdEffects s).1 (rollThresholdEffects s).2 := by
  unfold rollThresholdEffects
  exact EffPreserves_comp (volatilePass_eff d s)
    (EffPreserves_comp (fragilePass_eff d _) (stallPass_eff d _))

theorem firedThresholds_append (e1 e2 : List EEvent) :
    firedThresholds (e1 ++ e2) = firedThresholds e1 ++ firedThresholds e2 :=
  List.filterMap_append _ _ _

theorem firedThresholds_eq_nil {evs : List EEvent}
    (h : ∀ e ∈ evs, isThrB e = false) : firedThresholds evs = [] := by
  induction evs with
  | nil => rfl
  | cons e tl ih =>
    have he := h e (List.mem_cons_self e tl)
    have htl := ih (fun x hx => h x (List.mem_cons_of_mem e hx))
    cases e <;> simp_all [firedThresholds, isThrB]

theorem ThrCount_singleton_thr (t time t' : ℚ) :
    ThrCount t [.HazardThreshold time t'] = if t' = t then 1 else 0 := by
  by_cases ht : t' = t <;> simp [ThrCount, thrAt, ht]

/-- The central specification of the threshold loop: it never changes
hazard, the stabilized flag, the clock, configuration, options or tools;
it satisfies the once-per-threshold discipline; it keeps node conditions
in range; and every threshold it fires is at most the current hazard. -/
theorem checkLoop_spec (t : ℚ) (d : NodeId) (ts : List ℚ) : ∀ (s : EngineState),
    (checkLoop s ts).1.site.hazard = s.site.hazard ∧
    (checkLoop s ts).1.site.stabilizedVolatiles = s.site.stabilizedVolatiles ∧
    (checkLoop s ts).1.timeSec = s.timeSec ∧
    (checkLoop s ts).1.config = s.config ∧
    (checkLoop s ts).1.options = s.options ∧
    (checkLoop s ts).1.tools = s.tools ∧
    OnceStep t s (checkLoop s ts).1 (checkLoop s ts).2 ∧
    (CondOk s.heap d → CondOk (checkLoop s ts).1.heap d) ∧
    (∀ th ∈ firedThresholds (checkLoop s ts).2, th ≤ s.site.hazard) := by
  induction ts with
  | nil =>
    intro s
    refine ⟨rfl, rfl, rfl, rfl, rfl, rfl, OnceStep_refl t s, fun h => h, ?_⟩
    intro th hth
    cases hth
  | cons t' ts ih =>
    intro s
    by_cases hfire : t' ≤ s.site.hazard ∧ t' ∉ s.hazardState.triggeredThresholds
    · have key : checkLoop s (t' :: ts) =
        ((checkLoop (rollThresholdEffects
            { s with hazardState := { triggeredThresholds := t' :: s.hazardState.triggeredThresholds } }).1 ts).1,
         .HazardThreshold s.timeSec t' ::
           ((rollThresholdEffects
              { s with hazardState := { triggeredThresholds := t' :: s.hazardState.triggeredThresholds } }).2 ++
            (checkLoop (rollThresholdEffects
              { s with hazardState := { triggeredThresholds := t' :: s.hazardState.triggeredThresholds } }).1 ts).2)) := by
        simp only [checkLoop]
        rw [if_pos hfire]
      rw [key]
      obtain ⟨r1, r2, r3, r4, r5, r6, r7, r8, r9⟩ :=
        roll_eff d { s with hazardState := { triggeredThresholds := t' :: s.hazardState.triggeredThresholds } }
      obtain ⟨i1, i2, i3, i4, i5, i6, i7, i8, i9⟩ :=
        ih (rollThresholdEffects
          { s with hazardState := { triggeredThresholds := t' :: s.hazardState.triggeredThresholds } }).1
      have o1 : OnceStep t s
          { s with hazardState := { triggeredThresholds := t' :: s.hazardState.triggeredThresholds } }
          [.HazardThreshold s.timeSec t'] := by
        refine ⟨fun a ha => List.mem_cons_of_mem _ ha, ?_, ?_⟩
        · rw [ThrCount_singleton_thr]
          by_cases ht : t' = t
          · subst ht
            simp [hfire.2]
          · simp [ht]
        · intro hcnt
          rw [ThrCount_singleton_thr] at hcnt
          by_cases ht : t' = t
          · subst ht
            exact List.mem_cons_self _ _
          · simp [ht] at hcnt
      have o2 := @OnceStep_silent t _ _ _ r7 r8
      have honce := OnceStep_comp o1 (OnceStep_comp o2 i7)
      refine ⟨i1.trans r1, i2.trans r2, i3.trans r3, i4.trans r4, i5.trans r5, i6.trans r6,
        honce, fun h => i8 (r9 h), ?_⟩
      intro th hth
      rw [show (EEvent.HazardThreshold s.timeSec t' ::
          ((rollThresholdEffects
            { s with hazardState := { triggeredThresholds := t' :: s.hazardState.triggeredThresholds } }).2 ++
           (checkLoop (rollThresholdEffects
            { s with hazardState := { triggeredThresholds := t' :: s.hazardState.triggeredThresholds } }).1 ts).2)) =
          [EEvent.HazardThreshold s.timeSec t'] ++
          ((rollThresholdEffects
            { s with hazardState := { triggeredThresholds := t' :: s.hazardState.triggeredThresholds } }).2 ++
           (checkLoop (rollThresholdEffects
            { s with hazardState := { triggeredThresholds := t' :: s.hazardState.triggeredThresholds } }).1 ts).2) from rfl,
        firedThresholds_append, firedThresholds_append, firedThresholds_eq_nil r8] at hth
      simp only [List.nil_append] at hth
      rw [show firedThresholds [EEvent.HazardThreshold s.timeSec t'] = [t'] from rfl] at hth
      rcases List.mem_append.1 hth with h | h
      · rw [List.mem_singleton.1 h]
        exact hfire.1
      · have hle := i9 th h
        rw [r1] at hle
        exact hle
    · have key : checkLoop s (t' :: ts) = checkLoop s ts := by
        simp only [checkLoop]
        rw [if_neg hfire]
      rw [key]
      exact ih s

/-- The thresholds fired by one pass over the configured list form a
sublist of that list (hence they fire in list order). -/
theorem checkLoop_fired_sublist (ts : List ℚ) : ∀ s : EngineState,
    List.Sublist (firedThresholds (checkLoop s ts).2) ts := by
  induction ts with
  | nil =>
    intro s
    exact List.nil_sublist _
  | cons t' ts ih =>
    intro s
    by_cases hfire : t' ≤ s.site.hazard ∧ t' ∉ s.hazardState.triggeredThresholds
    · have key : checkLoop s (t' :: ts) =
        ((checkLoop (rollThresholdEffects
            { s with hazardState := { triggeredThresholds := t' :: s.hazardState.triggeredThresholds } }).1 ts).1,
         .HazardThreshold s.timeSec t' ::
           ((rollThresholdEffects
              { s with hazardState := { triggeredThresholds := t' :: s.hazardState.triggeredThresholds } }).2 ++
            (checkLoop (rollThresholdEffects
              { s with hazardState := { triggeredThresholds := t' :: s.hazardState.triggeredThresholds } }).1 ts).2)) := by
        simp only [checkLoop]
        rw [if_pos hfire]
      rw [key]
      obtain ⟨_, _, _, _, _, _, _, r8, _⟩ :=
        roll_eff "" { s with hazardState := { triggeredThresholds := t' :: s.hazardState.triggeredThresholds } }
      rw [show (EEvent.HazardThreshold s.timeSec t' ::
          ((rollThresholdEffects
            { s with hazardState := { triggeredThresholds := t' :: s.hazardState.triggeredThresholds } }).2 ++
           (checkLoop (rollThresholdEffects
            { s with hazardState := { triggeredThresholds := t' :: s.hazardState.triggeredThresholds } }).1 ts).2)) =
          [EEvent.HazardThreshold s.timeSec t'] ++
          ((rollThresholdEffects
            { s with hazardState := { triggeredThresholds := t' :: s.hazardState.triggeredThresholds } }).2 ++
           (checkLoop (rollThresholdEffects
            { s with hazardState := { triggeredThresholds := t' :: s.hazardState.triggeredThresholds } }).1 ts).2) from rfl,
        firedThresholds_append, firedThresholds_append, firedThresholds_eq_nil r8]
      simp only [List.nil_append]
      rw [show firedThresholds [EEvent.HazardThreshold s.timeSec t'] = [t'] from rfl]
      exact List.Sublist.cons₂ t' (ih _)
    · have key : checkLoop s (t' :: ts) = checkLoop s ts := by
        simp only [checkLoop]
        rw [if_neg hfire]
      rw [key]
      exact List.Sublist.cons t' (ih s)

/-- engine.ts `tickHazard`: clamps hazard up by the stance-scaled item
contribution, then resolves thresholds; everything else as `checkLoop`. -/
theorem tickHazard_spec (t : ℚ) (d : NodeId) (s : EngineState) (rate dt : ℚ) :
    (tickHazard s rate dt).1.site.hazard =
      clamp (s.site.hazard + rate * (STANCE_MODIFIERS s.options.stance).hazardMultiplier * dt)
        s.config.hazardClampMin s.config.hazardClampMax ∧
    (tickHazard s rate dt).1.site.stabilizedVolatiles = s.site.stabilizedVolatiles ∧
    (tickHazard s rate dt).1.timeSec = s.timeSec ∧
    (tickHazard s rate dt).1.config = s.config ∧
    (tickHazard s rate dt).1.options = s.options ∧
    (tickHazard s rate dt).1.tools = s.tools ∧
    OnceStep t s (tickHazard s rate dt).1 (tickHazard s rate dt).2 ∧
    (CondOk s.heap d → CondOk (tickHazard s rate dt).1.heap d) ∧
    (∀ th ∈ firedThresholds (tickHazard s rate dt).2,
      th ≤ clamp (s.site.hazard + rate * (STANCE_MODIFIERS s.options.stance).hazardMultiplier * dt)
        s.config.hazardClampMin s.config.hazardClampMax) := by
  obtain ⟨c1, c2, c3, c4, c5, c6, c7, c8, c9⟩ := checkLoop_spec t d
    s.config.hazardThresholds
    { s with site := (addHazard s.site
        (rate * (STANCE_MODIFIERS s.options.stance).hazardMultiplier * dt) s.config) }
  exact ⟨c1, c2, c3, c4, c5, c6, c7, c8, c9⟩

/-- The while-loop of `startNextNode` reads but never writes the heap, the
site, cargo, tools, options, config, the threshold bookkeeping, the random
source or the clock, and emits no `HazardThreshold` events. -/
theorem startLoop_frame (q : List NodeId) : ∀ s : EngineState,
    (startLoop s q).1.heap = s.heap ∧
    (startLoop s q).1.site = s.site ∧
    (startLoop s q).1.cargo = s.cargo ∧
    (startLoop s q).1.tools = s.tools ∧
    (startLoop s q).1.options = s.options ∧
    (startLoop s q).1.config = s.config ∧
    (startLoop s q).1.hazardState = s.hazardState ∧
    (startLoop s q).1.rng = s.rng ∧
    (startLoop s q).1.timeSec = s.timeSec ∧
    (∀ e ∈ (startLoop s q).2, isThrB e = false) := by
  induction q with
  | nil =>
    intro s
    exact ⟨rfl, rfl, rfl, rfl, rfl, rfl, rfl, rfl, rfl,
      (by intro e he; simp [startLoop] at he; subst he; rfl)⟩
  | cons nid rest ih =>
    intro s
    simp only [startLoop]
    split_ifs with h1
    · exact ih { s with queue := rest }
    · cases hce : canExtract s (getNode s.heap nid) with
      | some reason =>
        dsimp only
        split_ifs with h2
        · obtain ⟨a1, a2, a3, a4, a5, a6, a7, a8, a9, a10⟩ := ih { s with queue := rest }
          refine ⟨a1, a2, a3, a4, a5, a6, a7, a8, a9, ?_⟩
          intro e he
          rcases List.mem_cons.1 he with rfl | hmem
          · rfl
          · exact a10 e hmem
        · exact ⟨rfl, rfl, rfl, rfl, rfl, rfl, rfl, rfl, rfl, (by intro e he; cases he)⟩
      | none =>
        dsimp only
        refine ⟨rfl, rfl, rfl, rfl, rfl, rfl, rfl, rfl, rfl, ?_⟩
        intro e he
        simp at he
        subst he
        rfl

theorem OpPreserves_refl (t : ℚ) (d : NodeId) (s : EngineState) : OpPreserves t d s s [] :=
  ⟨rfl, rfl, rfl, OnceStep_refl t s, fun h => h, fun h => h⟩

theorem OpPreserves_comp {t : ℚ} {d : NodeId} {s1 s2 s3 : EngineState} {e1 e2 : List EEvent}
    (h1 : OpPreserves t d s1 s2 e1) (h2 : OpPreserves t d s2 s3 e2) :
    OpPreserves t d s1 s3 (e1 ++ e2) := by
  obtain ⟨c1, o1, t1, n1, z1, k1⟩ := h1
  obtain ⟨c2, o2, t2, n2, z2, k2⟩ := h2
  exact ⟨c2.trans c1, o2.trans o1, t2.trans t1, OnceStep_comp n1 n2,
    fun h => z2 (z1 h), fun h => k2 (k1 h)⟩

/-- Lemma: `tickHazard` is one whole-operation-preserving step. -/
theorem tickHazard_op (t : ℚ) (d : NodeId) (s : EngineState) (rate dt : ℚ) :
    OpPreserves t d s (tickHazard s rate dt).1 (tickHazard s rate dt).2 := by
  obtain ⟨h1, h2, h3, h4, h5, h6, h7, h8, h9⟩ := tickHazard_spec t d s rate dt
  refine ⟨h4, h5, h6, h7, ?_, h8⟩
  intro hok
  refine ⟨?_, ?_, ?_⟩
  · rw [h4]; exact hok.1
  · rw [h1, h4]; exact (clamp_mem _ _ _ hok.1).1
  · rw [h1, h4]; exact (clamp_mem _ _ _ hok.1).2

theorem stabilizeTicks_op (t : ℚ) (d : NodeId) : ∀ (k : ℕ) (s : EngineState),
    OpPreserves t d s (stabilizeTicks s k).1 (stabilizeTicks s k).2 := by
  intro k
  induction k with
  | zero => intro s; exact OpPreserves_refl t d s
  | succ k ih =>
    intro s
    simp only [stabilizeTicks]
    exact OpPreserves_comp (tickHazard_op t d s 0 (1 / s.config.tickRateHz)) (ih _)

/-- With zero item contribution and an in-range hazard value, each
stabilization tick adds exactly 0 and the clamp is the identity, so hazard
is numerically unchanged and every fired threshold was already met. -/
theorem stabilizeTicks_hazard : ∀ (k : ℕ) (s : EngineState),
    s.config.hazardClampMin ≤ s.site.hazard → s.site.hazard ≤ s.config.hazardClampMax →
    (stabilizeTicks s k).1.site.hazard = s.site.hazard ∧
    (∀ th ∈ firedThresholds (stabilizeTicks s k).2, th ≤ s.site.hazard) := by
  intro k
  induction k with
  | zero =>
    intro s _ _
    exact ⟨rfl, fun th hth => absurd hth (by simp [stabilizeTicks, firedThresholds])⟩
  | succ k ih =>
    intro s hlo hhi
    obtain ⟨h1, h2, h3, h4, h5, h6, h7, h8, h9⟩ := tickHazard_spec 0 "" s 0 (1 / s.config.tickRateHz)
    have hzero : (0 : ℚ) * (STANCE_MODIFIERS s.options.stance).hazardMultiplier *
        (1 / s.config.tickRateHz) = 0 := by ring
    have heq : (tickHazard s 0 (1 / s.config.tickRateHz)).1.site.hazard = s.site.hazard := by
      rw [h1, hzero, add_zero]
      exact clamp_eq_self _ _ _ hlo hhi
    have hrec := ih (tickHazard s 0 (1 / s.config.tickRateHz)).1
      (by rw [heq, h4]; exact hlo) (by rw [heq, h4]; exact hhi)
    simp only [stabilizeTicks]
    constructor
    · rw [hrec.1, heq]
    · intro th hth
      rw [firedThresholds_append] at hth
      rcases List.mem_append.1 hth with h | h
      · have := h9 th h
        rw [hzero, add_zero, clamp_eq_self _ _ _ hlo hhi] at this
        exact this
      · have := hrec.2 th h
        rw [heq] at this
        exact this

theorem maybeStabilize_op (t : ℚ) (d : NodeId) (s : EngineState) :
    OpPreserves t d s (maybeStabilize s).1 (maybeStabilize s).2 := by
  unfold maybeStabilize
  split_ifs with h
  · have h0 : OpPreserves t d s
        { s with site := { s.site with stabilizedVolatiles := true } }
        [.StabilizedVolatiles s.timeSec] := by
      refine ⟨rfl, rfl, rfl, OnceStep_silent rfl ?_, fun hok => hok, fun hc => hc⟩
      intro e he
      simp at he
      subst he
      rfl
    exact OpPreserves_comp h0 (stabilizeTicks_op t d _ _)
  · exact OpPreserves_refl t d s

/-- Stabilization during `start` leaves an in-range hazard value exactly
unchanged and fires only thresholds the current hazard already meets. -/
theorem maybeStabilize_hazard (s : EngineState)
    (hlo : s.config.hazardClampMin ≤ s.site.hazard)
    (hhi : s.site.hazard ≤ s.config.hazardClampMax) :
    (maybeStabilize s).1.site.hazard = s.site.hazard ∧
    (∀ th ∈ firedThresholds (maybeStabilize s).2, th ≤ s.site.hazard) := by
  unfold maybeStabilize
  split_ifs with h
  · have hrec := stabilizeTicks_hazard
      (stabilizeTickCount (s.config.stabilizeTimeSec * s.config.tickRateHz))
      { s with site := { s.site with stabilizedVolatiles := true } } hlo hhi
    refine ⟨hrec.1, ?_⟩
    intro th hth
    rw [show firedThresholds (EEvent.StabilizedVolatiles s.timeSec ::
        (stabilizeTicks { s with site := { s.site with stabilizedVolatiles := true } }
          (stabilizeTickCount (s.config.stabilizeTimeSec * s.config.tickRateHz))).2) =
        firedThresholds (stabilizeTicks { s with site := { s.site with stabilizedVolatiles := true } }
          (stabilizeTickCount (s.config.stabilizeTimeSec * s.config.tickRateHz))).2 from rfl] at hth
    exact hrec.2 th hth
  · exact ⟨rfl, fun th hth => absurd hth (by simp [firedThresholds])⟩

theorem start_op (t : ℚ) (d : NodeId) (s : EngineState) :
    OpPreserves t d s (start s).1 (start s).2 := by
  unfold start
  split_ifs with h
  · exact OpPreserves_refl t d s
  · have h0 : OpPreserves t d s { s with isRunning := true } [] :=
      ⟨rfl, rfl, rfl, OnceStep_silent rfl (fun e he => absurd he (List.not_mem_nil e)),
        fun hok => hok, fun hc => hc⟩
    exact OpPreserves_comp h0 (maybeStabilize_op t d _)

theorem removeNodeFromSite_frame (s : EngineState) (nid : NodeId) :
    (removeNodeFromSite s nid).heap = s.heap ∧
    (removeNodeFromSite s nid).cargo = s.cargo ∧
    (removeNodeFromSite s nid).config = s.config ∧
    (removeNodeFromSite s nid).options = s.options ∧
    (removeNodeFromSite s nid).tools = s.tools ∧
    (removeNodeFromSite s nid).hazardState = s.hazardState ∧
    (removeNodeFromSite s nid).site.hazard = s.site.hazard := by
  refine ⟨rfl, rfl, rfl, rfl, rfl, rfl, ?_⟩
  unfold removeNodeFromSite
  dsimp only
  split_ifs <;> rfl

/-- Lemma: `startNextNode` is a whole-operation-preserving step. -/
theorem startNextNode_op (t : ℚ) (d : NodeId) (s : EngineState) :
    OpPreserves t d s (startNextNode s).1 (startNextNode s).2 := by
  obtain ⟨a1, a2, a3, a4, a5, a6, a7, a8, a9, a10⟩ :=
    startLoop_frame s.queue { s with currentNode := none, currentNodeProgressSec := 0, currentNodeTotalSec := 0 }
  unfold startNextNode
  dsimp only
  refine ⟨a6, a5, a4, OnceStep_silent a7 a10, ?_, ?_⟩
  · intro hok
    refine ⟨?_, ?_, ?_⟩
    · rw [a6]; exact hok.1
    · rw [a6, a2]; exact hok.2.1
    · rw [a6, a2]; exact hok.2.2
  · intro hc
    rw [a1]
    exact hc

theorem runStepActive_spec (t : ℚ) (d : NodeId) (s : EngineState) (nid : NodeId) (dt : ℚ) :
    OpPreserves t d s (runStepActive s nid dt).1 (runStepActive s nid dt).2 := by
  have hop := tickHazard_op t d s (getNode s.heap nid).baseHazardPerSec dt
  have hclamp01 : ∀ n : LootNode,
      0 ≤ clamp (n.condition + (STANCE_MODIFIERS
        (tickHazard s (getNode s.heap nid).baseHazardPerSec dt).1.options.stance).conditionDelta) 0 100 ∧
      clamp (n.condition + (STANCE_MODIFIERS
        (tickHazard s (getNode s.heap nid).baseHazardPerSec dt).1.options.stance).conditionDelta) 0 100 ≤ 100 :=
    fun n => clamp_mem _ 0 100 (by norm_num)
  simp only [runStepActive]
  split_ifs with hp
  · cases hce : canExtract
        { (tickHazard s (getNode s.heap nid).baseHazardPerSec dt).1 with
          currentNodeProgressSec :=
            (tickHazard s (getNode s.heap nid).baseHazardPerSec dt).1.currentNodeProgressSec + dt }
        (getNode (tickHazard s (getNode s.heap nid).baseHazardPerSec dt).1.heap nid) with
    | some reason =>
      dsimp only
      rw [List.append_assoc]
      refine OpPreserves_comp hop ?_
      refine ⟨rfl, rfl, rfl, OnceStep_silent rfl ?_, fun hok => hok, fun hc => hc⟩
      intro e he
      simp at he
      rcases he with rfl | rfl <;> rfl
    | none =>
      dsimp only
      rw [List.append_assoc]
      refine OpPreserves_comp hop ?_
      obtain ⟨f1, f2, f3, f4, f5, f6, f7⟩ := removeNodeFromSite_frame
        (consumeCargo
          { (tickHazard s (getNode s.heap nid).baseHazardPerSec dt).1 with
            currentNodeProgressSec :=
              (tickHazard s (getNode s.heap nid).baseHazardPerSec dt).1.currentNodeProgressSec + dt,
            heap := (updateNode (tickHazard s (getNode s.heap nid).baseHazardPerSec dt).1.heap nid
              (fun n => { n with condition := clamp (n.condition + (STANCE_MODIFIERS
                (tickHazard s (getNode s.heap nid).baseHazardPerSec dt).1.options.stance).conditionDelta) 0 100 })) }
          (getNode (updateNode (tickHazard s (getNode s.heap nid).baseHazardPerSec dt).1.heap nid
            (fun n => { n with condition := clamp (n.condition + (STANCE_MODIFIERS
              (tickHazard s (getNode s.heap nid).baseHazardPerSec dt).1.options.stance).conditionDelta) 0 100 })) nid))
        nid
      refine ⟨f3, f4, f5, OnceStep_silent f6 ?_, ?_, ?_⟩
      · intro e he
        simp at he
        rcases he with rfl | rfl <;> rfl
      · intro hok
        refine ⟨?_, ?_, ?_⟩
        · rw [f3]; exact hok.1
        · rw [f3, f7]; exact hok.2.1
        · rw [f3, f7]; exact hok.2.2
      · intro hc
        rw [f1]
        exact CondOk_updateNode (fun n => rfl) (fun n _ _ => hclamp01 n) hc
  · refine OpPreserves_comp hop ?_
    refine ⟨rfl, rfl, rfl, OnceStep_silent rfl ?_, fun hok => hok, fun hc => hc⟩
    intro e he
    simp at he
    subst he
    rfl

theorem runStepGo_spec (t : ℚ) (d : NodeId) (s : EngineState) (dt : ℚ) :
    OpPreserves t d s (runStepGo s dt).1 (runStepGo s dt).2 := by
  unfold runStepGo
  cases hcur : s.currentNode with
  | some nid =>
    dsimp only
    exact runStepActive_spec t d s nid dt
  | none =>
    dsimp only
    split_ifs with hr
    · exact startNextNode_op t d s
    · cases hcur2 : (startNextNode s).1.currentNode with
      | none => exact startNextNode_op t d s
      | some nid2 =>
        dsimp only
        exact OpPreserves_comp (startNextNode_op t d s) (runStepActive_spec t d _ nid2 dt)

theorem runStep_spec (t : ℚ) (d : NodeId) (s : EngineState) :
    OpPreserves t d s (runStep s).1 (runStep s).2 := by
  unfold runStep
  split_ifs with hrun
  · exact OpPreserves_refl t d s
  · have h0 : OpPreserves t d s { s with timeSec := s.timeSec + 1 / s.config.tickRateHz } [] :=
      ⟨rfl, rfl, rfl, OnceStep_silent rfl (fun e he => absurd he (List.not_mem_nil e)),
        fun hok => hok, fun hc => hc⟩
    exact OpPreserves_comp h0 (runStepGo_spec t d _ _)

theorem abort_op (t : ℚ) (d : NodeId) (s : EngineState) :
    OpPreserves t d s (abort s).1 (abort s).2 := by
  unfold abort
  split_ifs with h
  · exact OpPreserves_refl t d s
  · refine ⟨rfl, rfl, rfl, OnceStep_silent rfl ?_, fun hok => hok, fun hc => hc⟩
    intro e he
    simp at he
    subst he
    rfl

/-- Lemma: `enqueue` changes nothing but the queue. -/
theorem enqueue_eq (nids : List NodeId) : ∀ s : EngineState,
    enqueue s nids = { s with queue := (enqueue s nids).queue } := by
  induction nids with
  | nil => intro s; rfl
  | cons n tl ih =>
    intro s
    have hstep : enqueue s (n :: tl) =
        enqueue (if s.site.nodes.contains n then { s with queue := s.queue ++ [n] } else s) tl := rfl
    by_cases hc : s.site.nodes.contains n
    · have hq : enqueue s (n :: tl) = enqueue { s with queue := s.queue ++ [n] } tl := by
        rw [hstep, if_pos hc]
      rw [hq, ih { s with queue := s.queue ++ [n] }]
    · have hq : enqueue s (n :: tl) = enqueue s tl := by
        rw [hstep, if_neg hc]
      rw [hq, ih s]

theorem enqueue_op (t : ℚ) (d : NodeId) (s : EngineState) (nids : List NodeId) :
    OpPreserves t d s (enqueue s nids) [] := by
  rw [enqueue_eq nids s]
  exact ⟨rfl, rfl, rfl, OnceStep_silent rfl (fun e he => absurd he (List.not_mem_nil e)),
    fun hok => hok, fun hc => hc⟩

theorem reorderQueue_op (t : ℚ) (d : NodeId) (s : EngineState) (i j : ℤ) :
    OpPreserves t d s (reorderQueue s i j) [] := by
  unfold reorderQueue
  split_ifs with h
  · exact OpPreserves_refl t d s
  · cases s.queue.get? i.toNat with
    | none => exact OpPreserves_refl t d s
    | some item =>
      exact ⟨rfl, rfl, rfl, OnceStep_silent rfl (fun e he => absurd he (List.not_mem_nil e)),
        fun hok => hok, fun hc => hc⟩

theorem clearQueue_op (t : ℚ) (d : NodeId) (s : EngineState) :
    OpPreserves t d s (clearQueue s) [] :=
  ⟨rfl, rfl, rfl, OnceStep_silent rfl (fun e he => absurd he (List.not_mem_nil e)),
    fun hok => hok, fun hc => hc⟩

theorem applyOp_spec (t : ℚ) (d : NodeId) (s : EngineState) (op : Op) :
    OpPreserves t d s (applyOp s op).1 (applyOp s op).2 := by
  cases op with
  | enqueue nids => exact enqueue_op t d s nids
  | reorderQueue i j => exact reorderQueue_op t d s i j
  | clearQueue => exact clearQueue_op t d s
  | start => exact start_op t d s
  | runStep => exact runStep_spec t d s
  | abort => exact abort_op t d s

theorem runOps_spec (t : ℚ) (d : NodeId) (ops : List Op) : ∀ s : EngineState,
    OpPreserves t d s (runOps s ops).1 (runOps s ops).2 := by
  induction ops with
  | nil => intro s; exact OpPreserves_refl t d s
  | cons op tl ih =>
    intro s
    simp only [runOps]
    exact OpPreserves_comp (applyOp_spec t d s op) (ih _)

/-- Lemma: `pickRandom` samples only elements of its input array. -/
theorem pickRandom_mem {α : Type} : ∀ (k : ℕ) (copy : List α) (rng : List ℚ) (x : α),
    x ∈ (pickRandom copy k rng).1 → x ∈ copy := by
  intro k
  induction k with
  | zero =>
    intro copy rng x hx
    simp [pickRandom] at hx
  | succ k ih =>
    intro copy rng x hx
    cases copy with
    | nil => simp [pickRandom] at hx
    | cons a tl =>
      rw [pickRandom] at hx
      · split_ifs at hx with h
        · dsimp only at hx
          rcases List.mem_cons.1 hx with heq | hmem
          · rw [heq]
            exact List.get_mem _ _ _
          · exact List.eraseIdx_subset _ _ (ih _ _ x hmem)
        · exact ih _ _ x hx
      · exact fun h => List.noConfusion h

/-- Dereferencing an id present in the heap yields an object carrying that
id. -/
theorem getNode_id {heap : List LootNode} {i : NodeId}
    (h : (findNode heap i).isSome = true) : (getNode heap i).id = i := by
  unfold getNode
  cases hf : findNode heap i with
  | none => rw [hf] at h; cases h
  | some n => exact findNode_id hf

/-- The fragile-damage loop body touches only the iterated (live) node:
nothing happens to the heap entry of any other id, its events mention only
the iterated node, and heap-entry existence is untouched. -/
theorem fragileCore_excl (s : EngineState) (i d : NodeId) (hne : i ≠ d)
    (hsome : (findNode s.heap i).isSome = true) :
    findNode (fragileCore s i).1.heap d = findNode s.heap d ∧
    (∀ e ∈ (fragileCore s i).2, evMentions d e = false) ∧
    (∀ j, (findNode (fragileCore s i).1.heap j).isSome = (findNode s.heap j).isSome) := by
  cases hrng : s.rng with
  | nil =>
    simp only [fragileCore, drawRand, nextRand, hrng]
    split_ifs with h1 h2
    · refine ⟨findNode_updateNode_ne (fun n => rfl) (fun h => hne h.symm), ?_, ?_⟩
      · intro e he
        simp at he
        subst he
        simp only [evMentions]
        have hid : (getNode (updateNode s.heap i
            (fun n => { n with condition := max 0 (n.condition - 15) })) i).id = i := by
          refine getNode_id ?_
          rw [isSome_findNode_updateNode s.heap i i
            (fun n => { n with condition := max 0 (n.condition - 15) }) (fun n => rfl)]
          exact hsome
        simp [hid, hne]
      · intro j
        exact isSome_findNode_updateNode _ _ _ _ (fun n => rfl)
    · exact ⟨rfl, (fun e he => absurd he (List.not_mem_nil e)), fun j => rfl⟩
    · exact ⟨rfl, (fun e he => absurd he (List.not_mem_nil e)), fun j => rfl⟩
  | cons r rest =>
    simp only [fragileCore, drawRand, nextRand, hrng]
    split_ifs with h1 h2
    · refine ⟨findNode_updateNode_ne (fun n => rfl) (fun h => hne h.symm), ?_, ?_⟩
      · intro e he
        simp at he
        subst he
        simp only [evMentions]
        have hid : (getNode (updateNode s.heap i
            (fun n => { n with condition := max 0 (n.condition - 15) })) i).id = i := by
          refine getNode_id ?_
          rw [isSome_findNode_updateNode s.heap i i
            (fun n => { n with condition := max 0 (n.condition - 15) }) (fun n => rfl)]
          exact hsome
        simp [hid, hne]
      · intro j
        exact isSome_findNode_updateNode _ _ _ _ (fun n => rfl)
    · exact ⟨rfl, (fun e he => absurd he (List.not_mem_nil e)), fun j => rfl⟩
    · exact ⟨rfl, (fun e he => absurd he (List.not_mem_nil e)), fun j => rfl⟩

/-- The stall loop body, likewise. -/
theorem stallCore_excl (s : EngineState) (i d : NodeId) (hne : i ≠ d)
    (hsome : (findNode s.heap i).isSome = true) :
    findNode (stallCore s i).1.heap d = findNode s.heap d ∧
    (∀ e ∈ (stallCore s i).2, evMentions d e = false) ∧
    (∀ j, (findNode (stallCore s i).1.heap j).isSome = (findNode s.heap j).isSome) := by
  cases hrng : s.rng with
  | nil =>
    simp only [stallCore, drawRand, nextRand, hrng]
    split_ifs with h1
    · refine ⟨findNode_updateNode_ne (fun n => rfl) (fun h => hne h.symm), ?_, ?_⟩
      · intro e he
        simp at he
        subst he
        simp only [evMentions]
        have hid : (getNode (updateNode s.heap i
            (fun n => { n with extractTimeSec := n.extractTimeSec + 3 })) i).id = i := by
          refine getNode_id ?_
          rw [isSome_findNode_updateNode s.heap i i
            (fun n => { n with extractTimeSec := n.extractTimeSec + 3 }) (fun n => rfl)]
          exact hsome
        simp [hid, hne]
      · intro j
        exact isSome_findNode_updateNode _ _ _ _ (fun n => rfl)
    · exact ⟨rfl, (fun e he => absurd he (List.not_mem_nil e)), fun j => rfl⟩
  | cons r rest =>
    simp only [stallCore, drawRand, nextRand, hrng]
    split_ifs with h1
    · refine ⟨findNode_updateNode_ne (fun n => rfl) (fun h => hne h.symm), ?_, ?_⟩
      · intro e he
        simp at he
        subst he
        simp only [evMentions]
        have hid : (getNode (updateNode s.heap i
            (fun n => { n with extractTimeSec := n.extractTimeSec + 3 })) i).id = i := by
          refine getNode_id ?_
          rw [isSome_findNode_updateNode s.heap i i
            (fun n => { n with extractTimeSec := n.extractTimeSec + 3 }) (fun n => rfl)]
          exact hsome
        simp [hid, hne]
      · intro j
        exact isSome_findNode_updateNode _ _ _ _ (fun n => rfl)
    · exact ⟨rfl, (fun e he => absurd he (List.not_mem_nil e)), fun j => rfl⟩

/-- Lift a loop-body exclusion property over a whole fold: a pass that
iterates only live ids ≠ d never touches the heap entry of `d` and never
emits an event about `d`. -/
theorem foldl_excl (d : NodeId) (core : EngineState → NodeId → EngineState × List EEvent)
    (hcore : ∀ s i, i ≠ d → (findNode s.heap i).isSome = true →
      findNode (core s i).1.heap d = findNode s.heap d ∧
      (∀ e ∈ (core s i).2, evMentions d e = false) ∧
      (∀ j, (findNode (core s i).1.heap j).isSome = (findNode s.heap j).isSome)) :
    ∀ (l : List NodeId) (s : EngineState),
      (∀ i ∈ l, i ≠ d) → (∀ i ∈ l, (findNode s.heap i).isSome = true) →
      findNode (l.foldl (stepEv core) (s, [])).1.heap d = findNode s.heap d ∧
      (∀ e ∈ (l.foldl (stepEv core) (s, [])).2, evMentions d e = false) := by
  intro l
  induction l with
  | nil =>
    intro s _ _
    exact ⟨rfl, fun e he => absurd he (List.not_mem_nil e)⟩
  | cons i tl ih =>
    intro s h1 h2
    rw [List.foldl_cons, stepEv_nil core s i]
    rw [show core s i = ((core s i).1, (core s i).2) from rfl,
      foldl_evshift (stepEv core) (stepEv_shift core) tl (core s i).1 (core s i).2]
    obtain ⟨e1, e2, e3⟩ := hcore s i (h1 i (List.mem_cons_self i tl)) (h2 i (List.mem_cons_self i tl))
    obtain ⟨f1, f2⟩ := ih (core s i).1
      (fun j hj => h1 j (List.mem_cons_of_mem i hj))
      (fun j hj => by rw [e3 j]; exact h2 j (List.mem_cons_of_mem i hj))
    refine ⟨f1.trans e1, ?_⟩
    intro e he
    rcases List.mem_append.1 he with h | h
    · exact e2 e h
    · exact f2 e h

/-- The fragile pass excludes nodes no longer in the live collection. -/
theorem fragilePass_excl (s : EngineState) (d : NodeId)
    (hd : ¬ d ∈ s.site.nodes) (hc : HeapClosed s) :
    findNode (fragilePass s).1.heap d = findNode s.heap d ∧
    (∀ e ∈ (fragilePass s).2, evMentions d e = false) := by
  unfold fragilePass
  exact foldl_excl d fragileCore (fun s i => fragileCore_excl s i d) s.site.nodes s
    (fun i hi heq => hd (heq ▸ hi)) (fun i hi => hc i hi)

/-- The stall pass excludes nodes no longer in the live collection. -/
theorem stallPass_excl (s : EngineState) (d : NodeId)
    (hd : ¬ d ∈ s.site.nodes) (hc : HeapClosed s) :
    findNode (stallPass s).1.heap d = findNode s.heap d ∧
    (∀ e ∈ (stallPass s).2, evMentions d e = false) := by
  unfold stallPass
  exact foldl_excl d stallCore (fun s i => stallCore_excl s i d) s.site.nodes s
    (fun i hi heq => hd (heq ▸ hi)) (fun i hi => hc i hi)

/-- Greedy-fill bounds: the running totals never exceed the maxima and the
result never exceeds the item budget. -/
theorem autoFill_spec (maxI : ℕ) (mM mV : ℚ) : ∀ (l : List LootNode) (count : ℕ) (mass vol : ℚ),
    mass ≤ mM → vol ≤ mV →
    (autoFill maxI mM mV l count mass vol).length ≤ maxI - count ∧
    mass + sumMass (autoFill maxI mM mV l count mass vol) ≤ mM ∧
    vol + sumVol (autoFill maxI mM mV l count mass vol) ≤ mV := by
  intro l
  induction l with
  | nil =>
    intro count mass vol hm hv
    refine ⟨by simp [autoFill], ?_, ?_⟩
    · simp [autoFill, sumMass]
      exact hm
    · simp [autoFill, sumVol]
      exact hv
  | cons n tl ih =>
    intro count mass vol hm hv
    rw [autoFill]
    split_ifs with h1 h2
    · refine ⟨by simp, ?_, ?_⟩
      · simp [sumMass]
        exact hm
      · simp [sumVol]
        exact hv
    · obtain ⟨l1, l2, l3⟩ := ih (count + 1) (mass + n.massKg) (vol + n.volumeM3) h2.1 h2.2
      refine ⟨?_, ?_, ?_⟩
      · simp only [List.length_cons]
        omega
      · rw [show sumMass (n :: autoFill maxI mM mV tl (count + 1) (mass + n.massKg) (vol + n.volumeM3)) =
          n.massKg + sumMass (autoFill maxI mM mV tl (count + 1) (mass + n.massKg) (vol + n.volumeM3)) from rfl]
        linarith
      · rw [show sumVol (n :: autoFill maxI mM mV tl (count + 1) (mass + n.massKg) (vol + n.volumeM3)) =
          n.volumeM3 + sumVol (autoFill maxI mM mV tl (count + 1) (mass + n.massKg) (vol + n.volumeM3)) from rfl]
        linarith
    · exact ih count mass vol hm hv

/-- Lemma: `enqueue` appends exactly the present ids, in order, with
multiplicity. -/
theorem enqueue_queue (nids : List NodeId) : ∀ s : EngineState,
    (enqueue s nids).queue = s.queue ++ nids.filter (fun i => s.site.nodes.contains i) := by
  induction nids with
  | nil => intro s; simp [enqueue]
  | cons n tl ih =>
    intro s
    have hstep : enqueue s (n :: tl) =
        enqueue (if s.site.nodes.contains n then { s with queue := s.queue ++ [n] } else s) tl := rfl
    by_cases hc : s.site.nodes.contains n
    · have hq : enqueue s (n :: tl) = enqueue { s with queue := s.queue ++ [n] } tl := by
        rw [hstep, if_pos hc]
      rw [hq, ih { s with queue := s.queue ++ [n] }]
      rw [show ({ s with queue := s.queue ++ [n] } : EngineState).queue = s.queue ++ [n] from rfl]
      rw [List.filter_cons]
      simp only [hc, if_pos]
      rw [List.append_assoc]
      rfl
    · have hq : enqueue s (n :: tl) = enqueue s tl := by
        rw [hstep, if_neg hc]
      rw [hq, ih s, List.filter_cons, if_neg hc]

/-! The claims. -/

/-- Claim C1, counterexample: in `c1state` the site satisfies the
exhausted-iff-empty equivalence (one node, flag false), yet after one
`runStep` — during which the hazard threshold at 30 fires and the volatile
node detonates — the node collection is empty while `exhausted` is still
false: hazard destruction (engine.ts:171) removes nodes without updating
the flag. -/
theorem c1_destruction_counterexample :
    (c1state.site.exhausted = true ↔ c1state.site.nodes = []) ∧
    (runStep c1state).1.site.nodes = [] ∧
    (runStep c1state).1.site.exhausted = false :=
  of_decide_eq_true (by with_unfolding_all rfl)

/-- Claim C1, amended: the exhausted-iff-empty equivalence is preserved by
the transfer-removal path `removeNodeFromSite` (which sets the flag when
the collection empties); the hazard-destruction path does not re-establish
it. -/
theorem c1_removal_invariant : ∀ (s : EngineState) (nid : NodeId),
    (s.site.exhausted = true ↔ s.site.nodes = []) →
    ((removeNodeFromSite s nid).site.exhausted = true ↔
     (removeNodeFromSite s nid).site.nodes = []) := by
  intro s nid h
  unfold removeNodeFromSite
  dsimp only
  by_cases hlen : (s.site.nodes.filter (fun i => i != nid)).length = 0
  · rw [if_pos hlen]
    constructor
    · intro _
      exact List.length_eq_zero.1 hlen
    · intro _
      rfl
  · rw [if_neg hlen]
    constructor
    · intro hex
      exfalso
      apply hlen
      rw [h.1 hex]
      rfl
    · intro hnil
      exfalso
      apply hlen
      have hnil2 : s.site.nodes.filter (fun i => i != nid) = [] := hnil
      rw [hnil2]
      rfl

/-- Witness for the amended C1 at a concrete state. -/
theorem c1_removal_invariant_witness :
    (c2start.site.exhausted = true ↔ c2start.site.nodes = []) ∧
    ((removeNodeFromSite c2start "n1").site.exhausted = true ↔
     (removeNodeFromSite c2start "n1").site.nodes = []) :=
  ⟨of_decide_eq_true (by with_unfolding_all rfl),
   c1_removal_invariant c2start "n1" (of_decide_eq_true (by with_unfolding_all rfl))⟩

set_option maxRecDepth 2000000 in
/-- The tick duration computed by the engine as the double `1 / 10`: the
nearest binary64 double to one tenth, which is strictly greater than
`1 / 10`. -/
theorem fdiv_one_ten :
    fdiv 1 10 = (3602879701896397 : ℚ) / 36028797018963968 ∧ 1 / 10 < fdiv 1 10 :=
  ⟨(by with_unfolding_all rfl), (by with_unfolding_all decide)⟩

set_option maxRecDepth 2000000 in
/-- Claim C2, counterexample (binary64 model): in the prescribed scenario
100 steps emit one hundred `ItemProgress` events — not ten — and, because
100 double additions of the double `1 / 10` fall short of 10 seconds, no
`ItemTransferred` at all within those 100 steps, a final progress payload
of 0.999999999999998 (short of 1.0), and no cargo change. -/
theorem c2_progress_counterexample :
    (runStepsD c2startD 100).2.countP isProgressB = 100 ∧
    ¬ (runStepsD c2startD 100).2.countP isProgressB = 10 ∧
    (runStepsD c2startD 100).2.countP isTransferredB = 0 ∧
    ((runStepsD c2startD 100).2.filterMap progressOf).getLast? =
      some ((4503599627370487 : ℚ) / 4503599627370496) ∧
    (4503599627370487 : ℚ) / 4503599627370496 < 1 ∧
    (runStepsD c2startD 100).1.cargo.usedMassKg = c2cargo.usedMassKg ∧
    ¬ (runStepsD c2startD 100).1.cargo.usedMassKg = c2cargo.usedMassKg + 10 :=
  ⟨(by with_unfolding_all rfl), (by with_unfolding_all decide),
   (by with_unfolding_all rfl), (by with_unfolding_all rfl),
   (by with_unfolding_all decide), (by with_unfolding_all rfl),
   (by with_unfolding_all decide)⟩

set_option maxRecDepth 2000000 in
/-- Claim C2, amended (binary64 model): one node (mass 10, volume 1, value
100, extract time 10 s, no tool, no tags), stance Normal, ample cargo,
tick rate 10, zero hazard contribution.  The first 100 steps emit exactly
one `ItemStarted` and one hundred `ItemProgress` events (one per step),
every progress payload strictly below 1 — the accumulated progress clock
is 9.99999999999998 s (the exact value of 100 double additions of the
double `1 / 10`) and the last payload 0.999999999999998 — with no
`ItemTransferred`, no `Completed` and cargo unchanged; the 101st step
reaches progress 1.0 and emits the single `ItemTransferred`, growing
`cargo.usedMassKg` by exactly 10; the 102nd step emits `Completed` (and no
further `ItemStarted`) and stops the engine. -/
theorem c2_scenario :
    (runStepsD c2startD 100).2.countP isStartedB = 1 ∧
    (runStepsD c2startD 100).2.countP isProgressB = 100 ∧
    (runStepsD c2startD 100).1.currentNodeProgressSec =
      (5629499534213109 : ℚ) / 562949953421312 ∧
    ((runStepsD c2startD 100).2.filterMap progressOf).getLast? =
      some ((4503599627370487 : ℚ) / 4503599627370496) ∧
    (((runStepsD c2startD 100).2.filterMap progressOf).all
      (fun p => decide (p < 1))) = true ∧
    (runStepsD c2startD 100).2.countP isTransferredB = 0 ∧
    (runStepsD c2startD 100).2.countP isCompletedB = 0 ∧
    (runStepsD c2startD 100).1.cargo.usedMassKg = c2cargo.usedMassKg ∧
    (runStepsD c2startD 101).2.countP isTransferredB = 1 ∧
    ((runStepsD c2startD 101).2.filterMap progressOf).getLast? = some 1 ∧
    (runStepsD c2startD 101).2.countP isCompletedB = 0 ∧
    (runStepsD c2startD 101).1.cargo.usedMassKg = c2cargo.usedMassKg + 10 ∧
    (runStepsD c2startD 102).2.countP isStartedB = 1 ∧
    (runStepsD c2startD 102).2.countP isCompletedB = 1 ∧
    (runStepsD c2startD 102).1.isRunning = false :=
  ⟨(by with_unfolding_all rfl), (by with_unfolding_all rfl),
   (by with_unfolding_all rfl), (by with_unfolding_all rfl),
   (by with_unfolding_all rfl), (by with_unfolding_all rfl),
   (by with_unfolding_all rfl), (by with_unfolding_all rfl),
   (by with_unfolding_all rfl), (by with_unfolding_all rfl),
   (by with_unfolding_all rfl), (by with_unfolding_all rfl),
   (by with_unfolding_all rfl), (by with_unfolding_all rfl),
   (by with_unfolding_all rfl)⟩

/-- Claim C3, counterexample: in `c3state`, node A detonates, its blast
destroys node B, and then B — already destroyed and removed from the site
— still rolls its own volatile explosion because the candidate list is a
snapshot: the single resolution emits `NodeDestroyed` for B twice. -/
theorem c3_double_destroy_counterexample :
    (rollThresholdEffects c3state).2.countP (destroyedOf "B") = 2 ∧
    ¬ (rollThresholdEffects c3state).2.countP (destroyedOf "B") ≤ 1 :=
  of_decide_eq_true (by with_unfolding_all rfl)

/-- Claim C3, amended: a node destroyed earlier in the resolution is
excluded from blast-neighbor selection (neighbors are drawn from the
current live collection minus the exploder) and from the fragile and stall
passes (which iterate the current live collection and neither touch nor
mention any id outside it); but a volatile candidate destroyed earlier in
the volatile pass still rolls its own explosion. -/
theorem c3_destroyed_excluded_amended :
    (∀ (s : EngineState) (nid x : NodeId),
       x ∈ (selectBlastNeighbors s nid).1 → x ∈ s.site.nodes ∧ x ≠ nid) ∧
    (∀ (s : EngineState) (d : NodeId), ¬ d ∈ s.site.nodes → HeapClosed s →
       findNode (fragilePass s).1.heap d = findNode s.heap d ∧
       (∀ e ∈ (fragilePass s).2, evMentions d e = false)) ∧
    (∀ (s : EngineState) (d : NodeId), ¬ d ∈ s.site.nodes → HeapClosed s →
       findNode (stallPass s).1.heap d = findNode s.heap d ∧
       (∀ e ∈ (stallPass s).2, evMentions d e = false)) := by
  refine ⟨?_, fun s d => fragilePass_excl s d, fun s d => stallPass_excl s d⟩
  intro s nid x hx
  have hmem := pickRandom_mem s.config.volatileRadiusCount
    (s.site.nodes.filter (fun i => i != nid)) s.rng x hx
  have := List.mem_filter.1 hmem
  refine ⟨this.1, ?_⟩
  have hb := this.2
  simp at hb
  exact hb

/-- Witness for the amended C3 at concrete states. -/
theorem c3_destroyed_excluded_witness :
    ("B" ∈ c3state.site.nodes ∧ "B" ≠ "A") ∧
    findNode (fragilePass c2start).1.heap "ghost" = findNode c2start.heap "ghost" ∧
    findNode (stallPass c2start).1.heap "ghost" = findNode c2start.heap "ghost" :=
  ⟨c3_destroyed_excluded_amended.1 c3state "A" "B" (of_decide_eq_true (by with_unfolding_all rfl)),
   (c3_destroyed_excluded_amended.2.1 c2start "ghost"
      (of_decide_eq_true (by with_unfolding_all rfl))
      (of_decide_eq_true (by with_unfolding_all rfl))).1,
   (c3_destroyed_excluded_amended.2.2 c2start "ghost"
      (of_decide_eq_true (by with_unfolding_all rfl))
      (of_decide_eq_true (by with_unfolding_all rfl))).1⟩

/-- Claim C4: over one engine instance (fresh `HazardState` from the
constructor) and any operation sequence, the `HazardThreshold` event for a
value `t` is emitted at most once — the effect pass runs exactly when that
event is emitted (`checkLoop`) — and within one threshold check the fired
thresholds appear in ascending order whenever the configured list is
ascending. -/
theorem c4_threshold_once_ascending :
    (∀ (heap : List LootNode) (site : Site) (cargo : CargoState) (tools : ToolsState)
       (options : OperationOptions) (config : SimulationConfig) (rng : List ℚ)
       (ops : List Op) (t : ℚ),
       ThrCount t (runOps (mkEngine heap site cargo tools options config rng) ops).2 ≤ 1) ∧
    (∀ s : EngineState, List.Sorted (· ≤ ·) s.config.hazardThresholds →
       List.Sorted (· ≤ ·) (firedThresholds (checkThresholdEvents s).2)) := by
  constructor
  · intro heap site cargo tools options config rng ops t
    obtain ⟨_, _, _, honce, _, _⟩ :=
      runOps_spec t "" ops (mkEngine heap site cargo tools options config rng)
    obtain ⟨_, hcnt, _⟩ := honce
    simpa [mkEngine, createHazardState] using hcnt
  · intro s hsorted
    exact List.Pairwise.sublist (checkLoop_fired_sublist s.config.hazardThresholds s) hsorted

/-- Witness for C4 at concrete inputs. -/
theorem c4_threshold_once_ascending_witness :
    ThrCount 30 (runOps (mkEngine [c2node] (siteWith ["n1"] 0) c2cargo toolsAll optsNormal
      DEFAULT_SIM_CONFIG []) [Op.start, Op.runStep, Op.runStep]).2 ≤ 1 ∧
    List.Sorted (· ≤ ·) (firedThresholds (checkThresholdEvents c1state).2) :=
  ⟨c4_threshold_once_ascending.1 [c2node] (siteWith ["n1"] 0) c2cargo toolsAll optsNormal
      DEFAULT_SIM_CONFIG [] [Op.start, Op.runStep, Op.runStep] 30,
   c4_threshold_once_ascending.2 c1state (of_decide_eq_true (by with_unfolding_all rfl))⟩

/-- Claim C5: `addHazard` always lands in the configured clamp range (for
a sane range), and hence over any operation sequence from a state whose
hazard is in range, the site's hazard stays within the range. -/
theorem c5_hazard_clamped :
    (∀ (site : Site) (amount : ℚ) (config : SimulationConfig),
       config.hazardClampMin ≤ config.hazardClampMax →
       config.hazardClampMin ≤ (addHazard site amount config).hazard ∧
       (addHazard site amount config).hazard ≤ config.hazardClampMax) ∧
    (∀ (s : EngineState) (ops : List Op),
       s.config.hazardClampMin ≤ s.config.hazardClampMax →
       s.config.hazardClampMin ≤ s.site.hazard →
       s.site.hazard ≤ s.config.hazardClampMax →
       s.config.hazardClampMin ≤ (runOps s ops).1.site.hazard ∧
       (runOps s ops).1.site.hazard ≤ s.config.hazardClampMax) := by
  constructor
  · intro site amount config h
    exact clamp_mem (site.hazard + amount) config.hazardClampMin config.hazardClampMax h
  · intro s ops h1 h2 h3
    obtain ⟨hcfg, _, _, _, hhaz, _⟩ := runOps_spec 0 "" ops s
    obtain ⟨ha, hb, hc⟩ := hhaz ⟨h1, h2, h3⟩
    rw [hcfg] at hb hc
    exact ⟨hb, hc⟩

/-- Witness for C5 at concrete inputs. -/
theorem c5_hazard_clamped_witness :
    (DEFAULT_SIM_CONFIG.hazardClampMin ≤
       (addHazard (siteWith ["n1"] 50) 250 DEFAULT_SIM_CONFIG).hazard ∧
     (addHazard (siteWith ["n1"] 50) 250 DEFAULT_SIM_CONFIG).hazard ≤
       DEFAULT_SIM_CONFIG.hazardClampMax) ∧
    (c2start.config.hazardClampMin ≤ (runOps c2start [Op.runStep, Op.runStep]).1.site.hazard ∧
     (runOps c2start [Op.runStep, Op.runStep]).1.site.hazard ≤ c2start.config.hazardClampMax) :=
  ⟨c5_hazard_clamped.1 (siteWith ["n1"] 50) 250 DEFAULT_SIM_CONFIG
     (of_decide_eq_true (by with_unfolding_all rfl)),
   c5_hazard_clamped.2 c2start [Op.runStep, Op.runStep]
     (of_decide_eq_true (by with_unfolding_all rfl))
     (of_decide_eq_true (by with_unfolding_all rfl))
     (of_decide_eq_true (by with_unfolding_all rfl))⟩

/-- Claim C6: every node object whose condition starts within [0,100]
keeps its condition within [0,100] across any sequence of engine
operations — every mutation either clamps into [0,100] or floors at 0
while only ever decreasing. -/
theorem c6_condition_in_range (s : EngineState) (d : NodeId) (ops : List Op)
    (h : CondOk s.heap d) : CondOk (runOps s ops).1.heap d :=
  (runOps_spec 0 d ops s).2.2.2.2.2 h

/-- Witness for C6 at concrete inputs. -/
theorem c6_condition_in_range_witness :
    CondOk c3state.heap "B" ∧
    CondOk (runOps c3state [Op.start, Op.runStep, Op.runStep]).1.heap "B" :=
  ⟨of_decide_eq_true (by with_unfolding_all rfl),
   c6_condition_in_range c3state "B" [Op.start, Op.runStep, Op.runStep]
     (of_decide_eq_true (by with_unfolding_all rfl))⟩

/-- Claim C7, counterexample: when cargo usage already exceeds the maximum
the returned list (empty here) cannot bring the total under the maximum,
so the claim fails for such cargo states. -/
theorem c7_overfull_counterexample :
    ¬ (c7cargoOver.usedMassKg +
        sumMass (computeAutoQueue [] c7cargoOver { preferredTags := [] } 20) ≤
       c7cargoOver.maxMassKg) :=
  of_decide_eq_true (by with_unfolding_all rfl)

/-- Claim C7, amended: provided the cargo's current usage is within its
maxima, `computeAutoQueue` returns at most `maxItems` nodes whose total
mass and volume, added to the current usage, stay within the maxima; and a
candidate that does not fit is skipped without ending the scan. -/
theorem c7_autoqueue_bounds :
    (∀ (nodes : List LootNode) (cargo : CargoState) (priorities : AutoQueuePriorities)
       (maxItems : ℕ),
       cargo.usedMassKg ≤ cargo.maxMassKg → cargo.usedVolumeM3 ≤ cargo.maxVolumeM3 →
       (computeAutoQueue nodes cargo priorities maxItems).length ≤ maxItems ∧
       cargo.usedMassKg + sumMass (computeAutoQueue nodes cargo priorities maxItems) ≤
         cargo.maxMassKg ∧
       cargo.usedVolumeM3 + sumVol (computeAutoQueue nodes cargo priorities maxItems) ≤
         cargo.maxVolumeM3) ∧
    (∀ (maxI : ℕ) (mM mV : ℚ) (n : LootNode) (rest : List LootNode) (count : ℕ)
       (mass vol : ℚ),
       count < maxI → ¬(mass + n.massKg ≤ mM ∧ vol + n.volumeM3 ≤ mV) →
       autoFill maxI mM mV (n :: rest) count mass vol =
         autoFill maxI mM mV rest count mass vol) := by
  constructor
  · intro nodes cargo priorities maxItems h1 h2
    have key : ∀ l : List LootNode,
        (autoFill maxItems cargo.maxMassKg cargo.maxVolumeM3 l 0
          cargo.usedMassKg cargo.usedVolumeM3).length ≤ maxItems ∧
        cargo.usedMassKg + sumMass (autoFill maxItems cargo.maxMassKg cargo.maxVolumeM3 l 0
          cargo.usedMassKg cargo.usedVolumeM3) ≤ cargo.maxMassKg ∧
        cargo.usedVolumeM3 + sumVol (autoFill maxItems cargo.maxMassKg cargo.maxVolumeM3 l 0
          cargo.usedMassKg cargo.usedVolumeM3) ≤ cargo.maxVolumeM3 := by
      intro l
      obtain ⟨l1, l2, l3⟩ := autoFill_spec maxItems cargo.maxMassKg cargo.maxVolumeM3 l 0
        cargo.usedMassKg cargo.usedVolumeM3 h1 h2
      exact ⟨by simpa using l1, l2, l3⟩
    exact key _
  · intro maxI mM mV n rest count mass vol h1 h2
    rw [autoFill, if_neg (by omega), if_neg h2]

/-- Witness for the amended C7 at concrete inputs. -/
theorem c7_autoqueue_bounds_witness :
    ((computeAutoQueue [c2node] c2cargo { preferredTags := [] } 20).length ≤ 20 ∧
     c2cargo.usedMassKg + sumMass (computeAutoQueue [c2node] c2cargo { preferredTags := [] } 20) ≤
       c2cargo.maxMassKg) ∧
    autoFill 20 (100 : ℚ) (10 : ℚ) (c2node :: []) 0 95 0 = autoFill 20 (100 : ℚ) (10 : ℚ) [] 0 95 0 :=
  ⟨⟨(c7_autoqueue_bounds.1 [c2node] c2cargo { preferredTags := [] } 20
      (of_decide_eq_true (by with_unfolding_all rfl))
      (of_decide_eq_true (by with_unfolding_all rfl))).1,
    (c7_autoqueue_bounds.1 [c2node] c2cargo { preferredTags := [] } 20
      (of_decide_eq_true (by with_unfolding_all rfl))
      (of_decide_eq_true (by with_unfolding_all rfl))).2.1⟩,
   c7_autoqueue_bounds.2 20 100 10 c2node [] 0 95 0 (by omega)
     (of_decide_eq_true (by with_unfolding_all rfl))⟩

set_option maxRecDepth 2000000 in
/-- Claim C8 (code bug): with `waitForSpace = true` and full cargo,
`canExtract` (engine.ts:88) reports ok — the wait branch of
`startNextNode` is unreachable — so the very first `runStep` emits
`ItemStarted` instead of holding, and after the extraction completes the
node is transferred anyway, overfilling the cargo (105 kg used against a
100 kg maximum). -/
theorem c8_waitforspace_bug :
    (runStep c8state).2.countP (startedOf "w1") = 1 ∧
    (runSteps c8state 100).1.cargo.usedMassKg = 105 ∧
    ¬ (runSteps c8state 100).1.cargo.usedMassKg ≤ c8state.cargo.maxMassKg :=
  of_decide_eq_true (by with_unfolding_all rfl)

/-- Claim C9: with the site's hazard inside the clamp range, `start`
leaves `site.hazard` numerically unchanged (each stabilization tick adds
exactly 0, and the clamp of an in-range value is the identity), and every
threshold fired during stabilization was already met by the current hazard
value. -/
theorem c9_start_hazard_unchanged : ∀ s : EngineState,
    s.config.hazardClampMin ≤ s.site.hazard →
    s.site.hazard ≤ s.config.hazardClampMax →
    (start s).1.site.hazard = s.site.hazard ∧
    (∀ th ∈ firedThresholds (start s).2, th ≤ s.site.hazard) := by
  intro s h1 h2
  unfold start
  split_ifs with hr
  · exact ⟨rfl, fun th hth => absurd hth (by simp [firedThresholds])⟩
  · exact maybeStabilize_hazard { s with isRunning := true } h1 h2

/-- Witness for C9 at a concrete state (stabilization enabled, hazard at a
threshold). -/
theorem c9_start_hazard_unchanged_witness :
    (start c9state).1.site.hazard = c9state.site.hazard :=
  (c9_start_hazard_unchanged c9state
    (of_decide_eq_true (by with_unfolding_all rfl))
    (of_decide_eq_true (by with_unfolding_all rfl))).1

/-- Claim C10: `enqueue` does not deduplicate — the queue is extended by
exactly the passed ids that are present in the site's live collection, in
order and with multiplicity, so the queue length grows by their count. -/
theorem c10_enqueue_no_dedup : ∀ (s : EngineState) (nids : List NodeId),
    getQueue (enqueue s nids) =
      getQueue s ++ nids.filter (fun i => s.site.nodes.contains i) ∧
    (getQueue (enqueue s nids)).length =
      (getQueue s).length + nids.countP (fun i => s.site.nodes.contains i) := by
  intro s nids
  refine ⟨enqueue_queue nids s, ?_⟩
  rw [show getQueue (enqueue s nids) = (enqueue s nids).queue from rfl,
    enqueue_queue nids s, List.length_append]
  rw [List.countP_eq_length_filter]
  rfl

end LootSim
